import Mathlib

/-!
# ELF2Heap: a shallow embedding of `scripts.js`

The development models the two analyses of `scripts.js`:

* the header analysis (`toUint32BE` and the body of `reader.onload`), and
* the text analysis (`computeDynamicBase` and the `input` handler of the
  disassembly text area, including the search for the secondary block).

JavaScript strings are modelled as lists of characters, JavaScript numbers as
integers rounded to the nearest IEEE-754 double (together with the two
infinities and NaN), the 32-bit operators `<<`, `|` and `>>>` by explicit
reduction modulo `2^32`.  The regular expressions of the source are modelled by
matchers that follow the backtracking order of the regular expression engine.
-/

namespace ELF2Heap

/-! ## JavaScript numbers -/

/-- The JavaScript numbers that the program can produce: NaN, an integer-valued
finite double, or an infinity.  Negative zero is identified with zero. -/
inductive JSNum where
  | nan : JSNum
  | fin (v : Int) : JSNum
  | inf (negative : Bool) : JSNum
  deriving DecidableEq, Repr

/-- The number of binary digits of `k`, counted with at most `fuel` halvings. -/
def bitLengthAux : Nat → Nat → Nat
  | 0, _ => 0
  | fuel + 1, k => if k = 0 then 0 else bitLengthAux fuel (k / 2) + 1

/-- The number of binary digits of a natural number. -/
def bitLength (m : Nat) : Nat :=
  bitLengthAux m m

/-- Round a natural number to the nearest double (ties to even); `none` stands
for an overflow to infinity.  A double carries 53 significant bits: with `e`
the number of bits beyond 53, the low `e` bits are rounded away; a result of
more than 1024 bits is beyond the largest double. -/
def roundNat (m : Nat) : Option Nat :=
  let e := bitLength m - 53
  let q := m / 2 ^ e
  let r := m % 2 ^ e
  let q1 := if 2 ^ e < 2 * r ∨ (2 * r = 2 ^ e ∧ q % 2 = 1) then q + 1 else q
  if bitLength (q1 * 2 ^ e) ≤ 1024 then some (q1 * 2 ^ e) else none

/-- The Number value of a mathematical integer. -/
def toNumber (n : Int) : JSNum :=
  match roundNat n.natAbs with
  | some m => if n < 0 then JSNum.fin (-(m : Int)) else JSNum.fin (m : Int)
  | none => JSNum.inf (decide (n < 0))

/-- The operator `+` on numbers. -/
def JSNum.add : JSNum → JSNum → JSNum
  | JSNum.fin a, JSNum.fin b => toNumber (a + b)
  | JSNum.fin _, JSNum.inf s => JSNum.inf s
  | JSNum.inf s, JSNum.fin _ => JSNum.inf s
  | JSNum.inf s, JSNum.inf t => if s = t then JSNum.inf s else JSNum.nan
  | _, _ => JSNum.nan

/-- The abstract operation ToUint32: NaN and the infinities give 0, a finite
number is reduced modulo `2^32`. -/
def toUint32 : JSNum → Int
  | JSNum.fin v => v % 2 ^ 32
  | _ => 0

/-- The abstract operation ToInt32: ToUint32 read as a two's complement
value. -/
def toInt32 (x : JSNum) : Int :=
  let m := toUint32 x
  if 2 ^ 31 ≤ m then m - 2 ^ 32 else m

/-- The operator `<<`: the left operand as a 32-bit integer shifted by the
count modulo 32, the result read as a signed 32-bit integer. -/
def shl (x : JSNum) (count : Nat) : JSNum :=
  JSNum.fin (toInt32 (JSNum.fin (toInt32 x * 2 ^ (count % 32))))

/-- The operator `|`: bitwise or of the two operands as 32-bit integers, the
result read as a signed 32-bit integer. -/
def bor (x y : JSNum) : JSNum :=
  JSNum.fin (toInt32 (JSNum.fin ((Nat.lor (toUint32 x).toNat (toUint32 y).toNat : Nat) : Int)))

/-- The operator `>>> 0`. -/
def ushr0 (x : JSNum) : JSNum :=
  JSNum.fin (toUint32 x)

/-- The operator `===` on numbers: NaN is equal to nothing. -/
def strictEq : JSNum → JSNum → Bool
  | JSNum.fin a, JSNum.fin b => decide (a = b)
  | JSNum.inf s, JSNum.inf t => decide (s = t)
  | _, _ => false

/-- The comparison `x >= y` on numbers with `y` finite. -/
def geFin : JSNum → Int → Bool
  | JSNum.fin a, b => decide (b ≤ a)
  | JSNum.inf s, _ => !s
  | JSNum.nan, _ => false

/-- The comparison `x <= y` on numbers with `y` finite. -/
def leFin : JSNum → Int → Bool
  | JSNum.fin a, b => decide (a ≤ b)
  | JSNum.inf s, _ => s
  | JSNum.nan, _ => false

/-! ## The header analysis -/

/-- The function `toUint32BE(bytes)`:
`(bytes[0] << 24) | (bytes[1] << 16) | (bytes[2] << 8) | (bytes[3])`. -/
def toUint32BE (b0 b1 b2 b3 : Nat) : JSNum :=
  bor (bor (bor (shl (JSNum.fin b0) 24) (shl (JSNum.fin b1) 16)) (shl (JSNum.fin b2) 8))
    (JSNum.fin b3)

/-- What `reader.onload` computes from the file: the four bytes at 0x18, the
load address `be` and the mapped address. -/
structure HeaderResult where
  bytes : List Nat
  be : JSNum
  mapped : JSNum
  deriving DecidableEq, Repr

/-- Element `i` of a `Uint8Array`; the guard of `reader.onload` keeps every
index that is read inside the array. -/
def byteAt (view : List (Fin 256)) (i : Nat) : Nat :=
  (view.getD i 0).val

/-- The body of `reader.onload` on the bytes of the file: `none` is the early
return after `alert('File too small')`. -/
def readerOnload (view : List (Fin 256)) : Option HeaderResult :=
  if view.length < 0x1C then none
  else
    let b0 := byteAt view 0x18
    let b1 := byteAt view 0x19
    let b2 := byteAt view 0x1A
    let b3 := byteAt view 0x1B
    let be := toUint32BE b0 b1 b2 b3
    let base := JSNum.fin 0x20000000
    let mapped := ushr0 (JSNum.add base be)
    some { bytes := [b0, b1, b2, b3], be := be, mapped := mapped }

/-! ## Strings and characters -/

/-- A JavaScript string, as the list of its characters. -/
abbrev JSString := List Char

/-- The characters of the class `\s` (and the ones `trim` removes): white space
and line terminators. -/
def isWhiteSpace (c : Char) : Bool :=
  let n := c.toNat
  n == 9 || n == 10 || n == 11 || n == 12 || n == 13 || n == 32 || n == 0xA0 ||
  n == 0x1680 || (0x2000 ≤ n && n ≤ 0x200A) || n == 0x2028 || n == 0x2029 ||
  n == 0x202F || n == 0x205F || n == 0x3000 || n == 0xFEFF

/-- The characters of the class `[0-9A-Fa-f]`. -/
def isHexDigit (c : Char) : Bool :=
  let n := c.toNat
  (48 ≤ n && n ≤ 57) || (65 ≤ n && n ≤ 70) || (97 ≤ n && n ≤ 102)

/-- The value of a hexadecimal digit. -/
def hexDigitValue (c : Char) : Nat :=
  let n := c.toNat
  if 48 ≤ n ∧ n ≤ 57 then n - 48
  else if 65 ≤ n ∧ n ≤ 70 then n - 55
  else n - 87

/-- Lower-casing of a character code; only `A`..`Z` map to the ASCII letters. -/
def lowerCode (n : Nat) : Nat :=
  if 65 ≤ n ∧ n ≤ 90 then n + 32 else n

/-- A pattern character against a text character under the flag `i`. -/
def ciEq (p c : Char) : Bool :=
  lowerCode p.toNat == lowerCode c.toNat

/-- The method `split('\n')`. -/
def splitLines : JSString → List JSString
  | [] => [[]]
  | c :: cs =>
    if c = '\n' then [] :: splitLines cs
    else
      match splitLines cs with
      | [] => [[c]]
      | l :: ls => (c :: l) :: ls

/-- The method `trimStart()`. -/
def trimStart (s : JSString) : JSString :=
  s.dropWhile isWhiteSpace

/-- The method `trim()`. -/
def trim (s : JSString) : JSString :=
  ((trimStart s).reverse.dropWhile isWhiteSpace).reverse

/-- The mathematical value of a run of hexadecimal digits. -/
def hexValue (ds : JSString) : Nat :=
  ds.foldl (fun acc c => acc * 16 + hexDigitValue c) 0

/-- The step of `parseInt(s, 16)` that removes a leading `0x` or `0X`. -/
def stripHexPrefix (s : JSString) : JSString :=
  match s with
  | c0 :: c1 :: r => if c0 = '0' ∧ (c1 = 'x' ∨ c1 = 'X') then r else s
  | _ => s

/-- The digits of `parseInt(s, 16)` after the sign: an optional `0x` or `0X`
is removed, the longest run of hexadecimal digits is read; no digit gives
NaN. -/
def parseDigits16 (negative : Bool) (s : JSString) : JSNum :=
  let ds := (stripHexPrefix s).takeWhile isHexDigit
  if ds.isEmpty then JSNum.nan
  else if negative then toNumber (-(hexValue ds : Int)) else toNumber (hexValue ds : Int)

/-- The function `parseInt(s, 16)`: leading white space is skipped, a sign is
read, then the digits. -/
def parseInt16 (s : JSString) : JSNum :=
  match trimStart s with
  | [] => parseDigits16 false []
  | c :: r =>
    if c = '-' then parseDigits16 true r
    else if c = '+' then parseDigits16 false r
    else parseDigits16 false (c :: r)

/-! ## The regular expressions -/

/-- A literal piece of a pattern at the start of the text, under the flag `i`;
the result is the text after it. -/
def litPrefix : JSString → JSString → Option JSString
  | [], s => some s
  | _ :: _, [] => none
  | p :: ps, c :: cs => if ciEq p c then litPrefix ps cs else none

/-- The piece `\s+` followed by a character that is no white space: the
longest run is the only one that can succeed. -/
def whiteSpace1 : JSString → Option JSString
  | [] => none
  | c :: cs => if isWhiteSpace c then some (cs.dropWhile isWhiteSpace) else none

/-- The piece `[0-9A-Fa-f]{1,n}` at the end of a pattern: greedy, at most `n`
digits. -/
def takeHex : Nat → JSString → JSString
  | 0, _ => []
  | _ + 1, [] => []
  | n + 1, c :: cs => if isHexDigit c then c :: takeHex n cs else []

/-- The first start position, from the left, at which a matcher succeeds. -/
def firstMatch {α : Type} (m : JSString → Option α) : JSString → Option α
  | [] => m []
  | c :: cs =>
    match m (c :: cs) with
    | some r => some r
    | none => firstMatch m cs

/-- The pattern `/lui\s+a0,0x([0-9A-Fa-f]{1,4})/i` at one start position; the
result is group 1. -/
def luiAt (s : JSString) : Option JSString :=
  match litPrefix "lui".toList s with
  | none => none
  | some r1 =>
    match whiteSpace1 r1 with
    | none => none
    | some r2 =>
      match litPrefix "a0,0x".toList r2 with
      | none => none
      | some r3 =>
        let ds := takeHex 4 r3
        if ds.isEmpty then none else some ds

/-- The call `line.match(/lui\s+a0,0x([0-9A-Fa-f]{1,4})/i)`, giving group 1. -/
def matchLUI (line : JSString) : Option JSString :=
  firstMatch luiAt line

/-- The piece `(-?0x[0-9A-Fa-f]+)` at the end of a pattern; the result is the
text it matches. -/
def signedHexAt (s : JSString) : Option JSString :=
  let sign := match s with
    | c :: _ => decide (c = '-')
    | [] => false
  let r := if sign then s.drop 1 else s
  match litPrefix "0x".toList r with
  | none => none
  | some r1 =>
    let ds := r1.takeWhile isHexDigit
    if ds.isEmpty then none else some (s.take ((if sign then 1 else 0) + 2 + ds.length))

/-- The pattern `/addiu\s+a0,a0,(-?0x[0-9A-Fa-f]+)/i` at one start position. -/
def addiuAt (s : JSString) : Option JSString :=
  match litPrefix "addiu".toList s with
  | none => none
  | some r1 =>
    match whiteSpace1 r1 with
    | none => none
    | some r2 =>
      match litPrefix "a0,a0,".toList r2 with
      | none => none
      | some r3 => signedHexAt r3

/-- The call `line.match(/addiu\s+a0,a0,(-?0x[0-9A-Fa-f]+)/i)`, giving group 1. -/
def matchADDIU (line : JSString) : Option JSString :=
  firstMatch addiuAt line

/-- The pattern `/addiu\s+v1,zero,0x([0-9A-Fa-f]{1,2})/i` at one start
position. -/
def v1At (s : JSString) : Option JSString :=
  match litPrefix "addiu".toList s with
  | none => none
  | some r1 =>
    match whiteSpace1 r1 with
    | none => none
    | some r2 =>
      match litPrefix "v1,zero,0x".toList r2 with
      | none => none
      | some r3 =>
        let ds := takeHex 2 r3
        if ds.isEmpty then none else some ds

/-- The call `prevLine.match(/addiu\s+v1,zero,0x([0-9A-Fa-f]{1,2})/i)`, giving
group 1. -/
def matchV1 (line : JSString) : Option JSString :=
  firstMatch v1At line

/-- The test `line.toLowerCase().includes('syscall')`.  No character outside
ASCII has a lower case among the letters of `syscall`. -/
def includesSyscall (line : JSString) : Bool :=
  (firstMatch (fun s => litPrefix "syscall".toList s) line).isSome

/-! ## The primary scan: `computeDynamicBase` -/

/-- The variables of the `for` loop of `computeDynamicBase` when it ends:
the index `i` at the `break` (`none` when the loop ran to the end) and the
three variables that are returned. -/
structure ScanResult where
  stop : Option Nat
  dynamicBase : Option JSNum
  upper : Option JSNum
  lower : Option JSNum
  deriving DecidableEq, Repr

/-- The assignment `if (matchLUI) upper = parseInt(matchLUI[1], 16)`. -/
def updateUpper (line : JSString) (upper : Option JSNum) : Option JSNum :=
  match matchLUI line with
  | some g => some (parseInt16 g)
  | none => upper

/-- The assignment `if (matchADDIU) lower = parseInt(matchADDIU[1], 16)`. -/
def updateLower (line : JSString) (lower : Option JSNum) : Option JSNum :=
  match matchADDIU line with
  | some g => some (parseInt16 g)
  | none => lower

/-- The test `v1Match && parseInt(v1Match[1], 16) === 0x3C` on the previous
line. -/
def v1Is3C (prevLine : JSString) : Bool :=
  match matchV1 prevLine with
  | some g => strictEq (parseInt16 g) (JSNum.fin 0x3C)
  | none => false

/-- The `for` loop of `computeDynamicBase` from index `i` on: `prevLine` is
`lines[i - 1] || ''`, `rest` the lines from index `i`. -/
def scanLines (prevLine : JSString) (upper lower : Option JSNum) (i : Nat) :
    List JSString → ScanResult
  | [] => { stop := none, dynamicBase := none, upper := upper, lower := lower }
  | line :: rest =>
    let upper1 := updateUpper line upper
    let lower1 := updateLower line lower
    match includesSyscall line && v1Is3C prevLine, upper1, lower1 with
    | true, some u, some l =>
      { stop := some i, dynamicBase := some (JSNum.add (shl u 16) l),
        upper := upper1, lower := lower1 }
    | _, _, _ => scanLines line upper1 lower1 (i + 1) rest

/-- The lines of the text: `mipsText.split('\n').map(l => l.trim())`. -/
def linesOf (mipsText : JSString) : List JSString :=
  (splitLines mipsText).map trim

/-- The loop of `computeDynamicBase(mipsText)` with its final state. -/
def scanText (mipsText : JSString) : ScanResult :=
  scanLines [] none none 0 (linesOf mipsText)

/-- The value `{ dynamicBase, upper, lower }` that `computeDynamicBase`
returns. -/
structure DynamicBaseResult where
  dynamicBase : Option JSNum
  upper : Option JSNum
  lower : Option JSNum
  deriving DecidableEq, Repr

/-- The function `computeDynamicBase(mipsText)`. -/
def computeDynamicBase (mipsText : JSString) : DynamicBaseResult :=
  let r := scanText mipsText
  { dynamicBase := r.dynamicBase, upper := r.upper, lower := r.lower }

/-! ## The `input` handler and the secondary block -/

/-- The piece `syscall\s*---` at one position; the result is the text after
it.  The dashes are no white space, so only the longest run of `\s*` can be
followed by them. -/
def syscallDashesAt (s : JSString) : Option JSString :=
  match litPrefix "syscall".toList s with
  | none => none
  | some r => litPrefix "---".toList (r.dropWhile isWhiteSpace)

/-- The piece `\s*\n`: the texts after each line feed of the leading white
space, in the order in which the greedy `\s*` gives them back (the last line
feed first). -/
def newlineCuts : JSString → List JSString
  | [] => []
  | c :: cs =>
    if isWhiteSpace c then newlineCuts cs ++ (if c = '\n' then [cs] else [])
    else []

/-- The rest of group 1 from one position,
`[\s\S]*?addiu v1,zero,0x3D[\s\S]*?syscall\s*---`: each lazy `[\s\S]*?` tries
the positions from the left; the result is the text after the match. -/
def secondTailAt (s : JSString) : Option JSString :=
  firstMatch
    (fun s1 =>
      match litPrefix "addiu v1,zero,0x3D".toList s1 with
      | none => none
      | some s2 => firstMatch syscallDashesAt s2)
    s

/-- Group 1 when it starts at `s`. -/
def secondGroupAt (s : JSString) : Option JSString :=
  match secondTailAt s with
  | none => none
  | some after => some (s.take (s.length - after.length))

/-- The pattern
`/(?:syscall\s*---\s*\n)([\s\S]*?addiu v1,zero,0x3D[\s\S]*?syscall\s*---)/i`
at one start position; the result is group 1. -/
def secondBlockAt (s : JSString) : Option JSString :=
  match syscallDashesAt s with
  | none => none
  | some r => (newlineCuts r).findSome? secondGroupAt

/-- The call `mipsText.match(...)` for the secondary block, giving group 1. -/
def secondBlockMatch (mipsText : JSString) : Option JSString :=
  firstMatch secondBlockAt mipsText

/-- The pattern `/lui a0,0x([0-9A-Fa-f]+)/i` at one start position. -/
def lui2At (s : JSString) : Option JSString :=
  match litPrefix "lui a0,0x".toList s with
  | none => none
  | some r =>
    let ds := r.takeWhile isHexDigit
    if ds.isEmpty then none else some ds

/-- The pattern `/addiu a0,a0,(-?0x[0-9A-Fa-f]+)/i` at one start position. -/
def addiu2At (s : JSString) : Option JSString :=
  match litPrefix "addiu a0,a0,".toList s with
  | none => none
  | some r => signedHexAt r

/-- The secondary base of a captured block: `secondBase` stays `null` unless
both patterns match. -/
def secondBaseOf (block : JSString) : Option JSNum :=
  match firstMatch lui2At block, firstMatch addiu2At block with
  | some g1, some g2 => some (JSNum.add (shl (parseInt16 g1) 16) (parseInt16 g2))
  | _, _ => none

/-- The truth value of a number in a condition: 0 and NaN count as false. -/
def truthy : JSNum → Bool
  | JSNum.fin v => decide (v ≠ 0)
  | JSNum.nan => false
  | JSNum.inf _ => true

/-- The base that the handler shows for the secondary block,
`secondBase ? hex(secondBase) : 'unknown'`: `none` stands for `unknown`, which
is shown when `secondBase` is `null` and also when it is 0. -/
def shownSecondBase (secondBase : Option JSNum) : Option JSNum :=
  match secondBase with
  | some b => if truthy b then some b else none
  | none => none

/-- The secondary block that the handler shows: the captured text and the base
shown with it (`none` when the handler shows `unknown`). -/
structure SecondBlock where
  block : JSString
  shownBase : Option JSNum
  deriving DecidableEq, Repr

/-- What the handler shows for a text with a primary base. -/
structure MipsResult where
  dynamicBase : JSNum
  isHeap : Bool
  upper : Option JSNum
  lower : Option JSNum
  second : Option SecondBlock
  deriving DecidableEq, Repr

/-- The test `dynamicBase >= 0x00100000 && dynamicBase <= 0x01FFFFFF`. -/
def isHeap (dynamicBase : JSNum) : Bool :=
  geFin dynamicBase 0x00100000 && leFin dynamicBase 0x01FFFFFF

/-- The `input` handler of the text area on the text it holds: `none` is the
`else` branch, in which the result is hidden and nothing is reported. -/
def mipsInputHandler (mipsText : JSString) : Option MipsResult :=
  let r := computeDynamicBase mipsText
  match r.dynamicBase with
  | some dynamicBase =>
    let second :=
      match secondBlockMatch mipsText with
      | some block =>
        some { block := block, shownBase := shownSecondBase (secondBaseOf block) }
      | none => none
    some { dynamicBase := dynamicBase, isHeap := isHeap dynamicBase,
           upper := r.upper, lower := r.lower, second := second }
  | none => none

/-! ## Predicates used in the statements -/

/-- Among the lines with index at most `i`, the last one that the matcher `m`
matches gives `result` (the parsed group); when none matches, `result` is the
initial value `init`. -/
def LastMatch (m : JSString → Option JSString) (lines : List JSString) (i : Nat)
    (init result : Option JSNum) : Prop :=
  (∃ j g, j ≤ i ∧ (lines[j]?).bind m = some g ∧ result = some (parseInt16 g) ∧
      ∀ k, j < k → k ≤ i → (lines[k]?).bind m = none) ∨
  (result = init ∧ ∀ k, k ≤ i → (lines[k]?).bind m = none)

/-- Every line that contains the call marker (as the code tests it, without
regard to case) is immediately preceded by a line `addiu v1,zero,0xK`, with
`K` a non-empty run of hexadecimal digits that satisfies `ok`. -/
def SyscallsPreceded (ok : JSString → Prop) (lines : List JSString) : Prop :=
  ∀ i line, lines[i]? = some line → includesSyscall line = true →
    ∃ K, 0 < i ∧ lines[i - 1]? = some ("addiu v1,zero,0x".toList ++ K) ∧ K ≠ [] ∧
      (∀ c ∈ K, isHexDigit c = true) ∧ ok K

/-- The text of a signed hexadecimal immediate: an optional minus, `0x`, the
digits. -/
def signedHexText (negative : Bool) (D : JSString) : JSString :=
  (if negative then "-".toList else []) ++ "0x".toList ++ D

/-- The value of a signed hexadecimal immediate. -/
def signedHexValue (negative : Bool) (D : JSString) : Int :=
  if negative then -(hexValue D : Int) else (hexValue D : Int)

/-- The four-line text `lui a0,0xU` / `addiu a0,a0,L` / `addiu v1,zero,0x3C` /
`syscall`, with `U` the digits of the upper immediate and `L` the signed
immediate with digits `D`. -/
def primaryBlockText (U : JSString) (negative : Bool) (D : JSString) : JSString :=
  "lui a0,0x".toList ++ U ++ "\naddiu a0,a0,".toList ++ signedHexText negative D
    ++ "\naddiu v1,zero,0x3C\nsyscall".toList

/-- Following the words of the claim: the upper-load idiom at one start
position, with the immediate as it is written, that is, every hexadecimal
digit after `0x` (the pattern of the code reads at most four of them). -/
def luiWrittenAt (s : JSString) : Option JSString :=
  match litPrefix "lui".toList s with
  | none => none
  | some r1 =>
    match whiteSpace1 r1 with
    | none => none
    | some r2 =>
      match litPrefix "a0,0x".toList r2 with
      | none => none
      | some r3 =>
        let ds := r3.takeWhile isHexDigit
        if ds.isEmpty then none else some ds

/-- Following the words of the claim: the digits of the immediate written in a
line that matches the upper-load idiom. -/
def writtenUpperImmediate (line : JSString) : Option JSString :=
  firstMatch luiWrittenAt line

/-- The value of a signed hexadecimal immediate written as an optional minus,
`0x` or `0X`, and hexadecimal digits. -/
def writtenValue (g : JSString) : Int :=
  match g with
  | [] => 0
  | c :: r =>
    if c = '-' then -(hexValue (r.drop 2) : Int) else (hexValue ((c :: r).drop 2) : Int)

/-! ## Example texts -/

/-- A primary block (system call 0x3C) followed by a secondary block (system
call 0x3D), in the format with `syscall ---` delimiters. -/
def exampleTwoBlocks : JSString :=
  ("lui a0,0x70\naddiu a0,a0,0x1234\naddiu v1,zero,0x3C\nsyscall ---\n"
    ++ "lui a0,0x01\naddiu a0,a0,0x5678\naddiu v1,zero,0x3D\nsyscall ---").toList

/-- A secondary block between two `syscall ---` delimiters, with no primary
block in the text. -/
def exampleSecondaryOnly : JSString :=
  ("syscall ---\n"
    ++ "lui a0,0x01\naddiu a0,a0,0x5678\naddiu v1,zero,0x3D\nsyscall ---").toList

/-- The block that the secondary pattern captures in both example texts. -/
def exampleSecondBlock : JSString :=
  "lui a0,0x01\naddiu a0,a0,0x5678\naddiu v1,zero,0x3D\nsyscall ---".toList

/-- A block with system call 0x3D, which does not qualify, followed by a
primary block with other immediates. -/
def exampleEarlierBlock : JSString :=
  ("lui a0,0x11\naddiu a0,a0,0x22\naddiu v1,zero,0x3D\nsyscall\n"
    ++ "lui a0,0x70\naddiu a0,a0,0x1234\naddiu v1,zero,0x3C\nsyscall").toList

/-- A primary block whose upper immediate is written with five digits. -/
def exampleLongUpper : JSString :=
  "lui a0,0x12345\naddiu a0,a0,0x0\naddiu v1,zero,0x3C\nsyscall".toList

/-- A primary block whose lower immediate is `2^53 + 1`. -/
def exampleLongLower : JSString :=
  "lui a0,0x70\naddiu a0,a0,0x20000000000001\naddiu v1,zero,0x3C\nsyscall".toList

/-! ## Lemmas on numbers -/

theorem bitLengthAux_le (fuel : Nat) : ∀ (k n : Nat), k < 2 ^ n → bitLengthAux fuel k ≤ n := by
  induction fuel with
  | zero => intro k n _; simp [bitLengthAux]
  | succ f ih =>
    intro k n hk
    simp only [bitLengthAux]
    split
    · exact Nat.zero_le _
    · rename_i hk0
      cases n with
      | zero => simp at hk; exact absurd hk hk0
      | succ n =>
        have : k / 2 < 2 ^ n := by
          rw [Nat.pow_succ] at hk
          omega
        have := ih (k / 2) n this
        omega

theorem roundNat_exact (m : Nat) (h : m ≤ 2 ^ 53) : roundNat m = some m := by
  rcases Nat.lt_or_eq_of_le h with hlt | heq
  · have hb : bitLength m ≤ 53 := bitLengthAux_le m m 53 hlt
    have hb2 : bitLength m ≤ 1024 := by omega
    have he : bitLength m - 53 = 0 := by omega
    simp [roundNat, he, Nat.mod_one, hb2]
  · subst heq
    decide

theorem toNumber_exact (n : Int) (h : n.natAbs ≤ 2 ^ 53) : toNumber n = JSNum.fin n := by
  have hr : roundNat n.natAbs = some n.natAbs := roundNat_exact n.natAbs h
  unfold toNumber
  rw [hr]
  show (if n < 0 then JSNum.fin (-(n.natAbs : Int)) else JSNum.fin (n.natAbs : Int)) = JSNum.fin n
  split <;> congr 1 <;> omega

/-! ## Lemmas on the 32-bit operators -/

theorem toUint32_fin_toInt32 (x : JSNum) : toUint32 (JSNum.fin (toInt32 x)) = toUint32 x := by
  cases x <;> simp only [toInt32, toUint32] <;> split <;> omega

theorem toUint32_fin_nat (n : Nat) (h : n < 2 ^ 32) : toUint32 (JSNum.fin (n : Int)) = (n : Int) := by
  simp only [toUint32]; omega

theorem shl_byte (b k : Nat) (hb : b < 256) (hk : k ≤ 24) :
    toUint32 (shl (JSNum.fin (b : Int)) k) = ((b * 2 ^ k : Nat) : Int) := by
  have hk32 : k % 32 = k := by omega
  have hlt : b * 2 ^ k < 2 ^ 32 := by
    calc b * 2 ^ k < 256 * 2 ^ k := by
          exact Nat.mul_lt_mul_of_pos_right hb (Nat.two_pow_pos k)
      _ ≤ 256 * 2 ^ 24 := Nat.mul_le_mul_left _ (Nat.pow_le_pow_right (by decide) hk)
      _ = 2 ^ 32 := by norm_num
  have h1 : toInt32 (JSNum.fin (b : Int)) = (b : Int) := by
    simp only [toInt32, toUint32]; split <;> omega
  rw [shl, toUint32_fin_toInt32, h1, hk32]
  have : ((b : Int) * 2 ^ k) = ((b * 2 ^ k : Nat) : Int) := by push_cast; ring
  rw [this]
  exact toUint32_fin_nat _ hlt

theorem toUint32_bor (x y : JSNum) :
    toUint32 (bor x y) = (((toUint32 x).toNat ||| (toUint32 y).toNat : Nat) : Int) % 2 ^ 32 := by
  rw [bor, toUint32_fin_toInt32]; rfl

theorem toUint32BE_unsigned (b0 b1 b2 b3 : Nat) (h0 : b0 < 256) (h1 : b1 < 256)
    (h2 : b2 < 256) (h3 : b3 < 256) :
    toUint32 (toUint32BE b0 b1 b2 b3)
      = ((b0 * 2 ^ 24 + b1 * 2 ^ 16 + b2 * 2 ^ 8 + b3 : Nat) : Int) := by
  have e1 : b0 * 2 ^ 24 ||| b1 * 2 ^ 16 = b0 * 2 ^ 24 + b1 * 2 ^ 16 := by
    have := Nat.mul_add_lt_is_or (show b1 * 2 ^ 16 < 2 ^ 24 by omega) b0
    rw [Nat.mul_comm (2 ^ 24) b0] at this
    exact this.symm
  have e2 : (b0 * 2 ^ 24 + b1 * 2 ^ 16) ||| b2 * 2 ^ 8
      = b0 * 2 ^ 24 + b1 * 2 ^ 16 + b2 * 2 ^ 8 := by
    have := Nat.mul_add_lt_is_or (show b2 * 2 ^ 8 < 2 ^ 16 by omega) (b0 * 2 ^ 8 + b1)
    have e : 2 ^ 16 * (b0 * 2 ^ 8 + b1) = b0 * 2 ^ 24 + b1 * 2 ^ 16 := by omega
    rw [e] at this
    exact this.symm
  have e3 : (b0 * 2 ^ 24 + b1 * 2 ^ 16 + b2 * 2 ^ 8) ||| b3
      = b0 * 2 ^ 24 + b1 * 2 ^ 16 + b2 * 2 ^ 8 + b3 := by
    have := Nat.mul_add_lt_is_or (show b3 < 2 ^ 8 by omega) (b0 * 2 ^ 16 + b1 * 2 ^ 8 + b2)
    have e : 2 ^ 8 * (b0 * 2 ^ 16 + b1 * 2 ^ 8 + b2)
        = b0 * 2 ^ 24 + b1 * 2 ^ 16 + b2 * 2 ^ 8 := by omega
    rw [e] at this
    exact this.symm
  rw [toUint32BE, toUint32_bor, toUint32_bor, toUint32_bor,
    shl_byte b0 24 h0 (by decide), shl_byte b1 16 h1 (by decide),
    shl_byte b2 8 h2 (by decide), toUint32_fin_nat b3 (by omega)]
  simp only [Int.toNat_ofNat, e1]
  have m1 : ((b0 * 2 ^ 24 + b1 * 2 ^ 16 : Nat) : Int) % 2 ^ 32
      = ((b0 * 2 ^ 24 + b1 * 2 ^ 16 : Nat) : Int) := by omega
  rw [m1]
  simp only [Int.toNat_ofNat, e2]
  have m2 : ((b0 * 2 ^ 24 + b1 * 2 ^ 16 + b2 * 2 ^ 8 : Nat) : Int) % 2 ^ 32
      = ((b0 * 2 ^ 24 + b1 * 2 ^ 16 + b2 * 2 ^ 8 : Nat) : Int) := by omega
  rw [m2]
  simp only [Int.toNat_ofNat, e3]
  omega

theorem toInt32_idem (z : Int) :
    toInt32 (JSNum.fin (toInt32 (JSNum.fin z))) = toInt32 (JSNum.fin z) := by
  simp only [toInt32, toUint32]
  split <;> split <;> omega

theorem toUint32BE_isFin (b0 b1 b2 b3 : Nat) :
    toUint32BE b0 b1 b2 b3 = JSNum.fin (toInt32 (toUint32BE b0 b1 b2 b3)) := by
  rw [toUint32BE, bor, toInt32_idem]

theorem toInt32_of_toUint32 (x : JSNum) :
    toInt32 x = if 2 ^ 31 ≤ toUint32 x then toUint32 x - 2 ^ 32 else toUint32 x := rfl

/-- The value of `toUint32BE` on four bytes: the big-endian value read as a
signed 32-bit integer. -/
theorem toUint32BE_value (b0 b1 b2 b3 : Nat) (h0 : b0 < 256) (h1 : b1 < 256)
    (h2 : b2 < 256) (h3 : b3 < 256) :
    toUint32BE b0 b1 b2 b3
      = JSNum.fin (if b0 < 128
          then ((b0 * 2 ^ 24 + b1 * 2 ^ 16 + b2 * 2 ^ 8 + b3 : Nat) : Int)
          else ((b0 * 2 ^ 24 + b1 * 2 ^ 16 + b2 * 2 ^ 8 + b3 : Nat) : Int) - 2 ^ 32) := by
  rw [toUint32BE_isFin, toInt32_of_toUint32, toUint32BE_unsigned b0 b1 b2 b3 h0 h1 h2 h3]
  congr 1
  split <;> split <;> omega

theorem byteAt_lt (view : List (Fin 256)) (i : Nat) : byteAt view i < 256 :=
  (view.getD i 0).isLt

theorem readerOnload_of_le (view : List (Fin 256)) (h : 0x1C ≤ view.length) :
    readerOnload view = some
      { bytes := [byteAt view 0x18, byteAt view 0x19, byteAt view 0x1A, byteAt view 0x1B],
        be := toUint32BE (byteAt view 0x18) (byteAt view 0x19) (byteAt view 0x1A)
          (byteAt view 0x1B),
        mapped := ushr0 (JSNum.add (JSNum.fin 0x20000000)
          (toUint32BE (byteAt view 0x18) (byteAt view 0x19) (byteAt view 0x1A)
            (byteAt view 0x1B))) } := by
  unfold readerOnload
  rw [if_neg (by omega)]

theorem mapped_value (b0 b1 b2 b3 : Nat) (h0 : b0 < 256) (h1 : b1 < 256)
    (h2 : b2 < 256) (h3 : b3 < 256) :
    ushr0 (JSNum.add (JSNum.fin 0x20000000) (toUint32BE b0 b1 b2 b3))
      = JSNum.fin (((0x20000000 + b0 * 2 ^ 24 + b1 * 2 ^ 16 + b2 * 2 ^ 8 + b3) % 2 ^ 32
          : Nat) : Int) := by
  rw [toUint32BE_value b0 b1 b2 b3 h0 h1 h2 h3]
  simp only [JSNum.add]
  rw [toNumber_exact _ (by split <;> omega)]
  simp only [ushr0, toUint32]
  congr 1
  split <;> omega

/-! ## The header analysis: theorems -/

/-- C4: on a byte sequence of at least 0x1C bytes the header analysis gives the
mapped address `(0x20000000 + b[0x18]*2^24 + b[0x19]*2^16 + b[0x1A]*2^8 +
b[0x1B]) mod 2^32`, a value below `2^32`; the bytes 00 01 00 00 give
0x20010000. -/
theorem mapped_address_wraps (view : List (Fin 256)) (h : 0x1C ≤ view.length) :
    ∃ (r : HeaderResult) (m : Nat), readerOnload view = some r ∧
      r.mapped = JSNum.fin (m : Int) ∧ m < 2 ^ 32 ∧
      m = (0x20000000 + byteAt view 0x18 * 2 ^ 24 + byteAt view 0x19 * 2 ^ 16
            + byteAt view 0x1A * 2 ^ 8 + byteAt view 0x1B) % 2 ^ 32 ∧
      (r.bytes = [0x00, 0x01, 0x00, 0x00] → r.mapped = JSNum.fin 0x20010000) := by
  refine ⟨_, _, readerOnload_of_le view h, ?_, ?_, rfl, ?_⟩
  · exact mapped_value _ _ _ _ (byteAt_lt _ _) (byteAt_lt _ _) (byteAt_lt _ _) (byteAt_lt _ _)
  · exact Nat.mod_lt _ (by decide)
  · intro hb
    simp only [List.cons.injEq, and_true] at hb
    obtain ⟨e0, e1, e2, e3⟩ := hb
    rw [e0, e1, e2, e3]
    decide

/-- Witness of C4: a header of 0x1C bytes with 00 01 00 00 at offset 0x18. -/
theorem mapped_address_wraps_witness :
    ∃ (r : HeaderResult) (m : Nat),
      readerOnload (List.replicate 0x18 0 ++ [0x00, 0x01, 0x00, 0x00]) = some r ∧
      r.mapped = JSNum.fin (m : Int) ∧ m < 2 ^ 32 ∧
      m = (0x20000000 + 0 * 2 ^ 24 + 1 * 2 ^ 16 + 0 * 2 ^ 8 + 0) % 2 ^ 32 ∧
      (r.bytes = [0x00, 0x01, 0x00, 0x00] → r.mapped = JSNum.fin 0x20010000) :=
  mapped_address_wraps (List.replicate 0x18 0 ++ [0x00, 0x01, 0x00, 0x00]) (by decide)

/-- C5: the header analysis gives no result exactly when the byte sequence is
shorter than 0x1C bytes, and gives a result exactly when it has at least 0x1C
bytes. -/
theorem header_fails_iff_short (view : List (Fin 256)) :
    (readerOnload view = none ↔ view.length < 0x1C) ∧
    ((∃ r, readerOnload view = some r) ↔ 0x1C ≤ view.length) := by
  by_cases h : view.length < 0x1C
  · have hn : readerOnload view = none := by
      unfold readerOnload
      rw [if_pos h]
    constructor
    · exact ⟨fun _ => h, fun _ => hn⟩
    · constructor
      · rintro ⟨r, hr⟩
        rw [hn] at hr
        exact absurd hr (by simp)
      · intro h2
        omega
  · have hs := readerOnload_of_le view (by omega)
    constructor
    · constructor
      · intro hn
        rw [hs] at hn
        exact absurd hn (by simp)
      · intro h2
        exact absurd h2 h
    · exact ⟨fun _ => by omega, fun _ => ⟨_, hs⟩⟩

/-- C8 (the code at the failing input): with a first byte of 0x80 the function
`toUint32BE` returns the negative number -2147483648, not 2147483648, and the
header analysis reports it as the load address. -/
theorem toUint32BE_high_byte_negative :
    toUint32BE 0x80 0 0 0 = JSNum.fin (-2147483648) ∧
    readerOnload (List.replicate 0x18 0 ++ [0x80, 0x00, 0x00, 0x00])
      = some { bytes := [0x80, 0, 0, 0], be := JSNum.fin (-2147483648),
               mapped := JSNum.fin 0xA0000000 } := by
  decide

/-! ## The text analysis: theorems -/

theorem isHeap_iff (d : JSNum) :
    isHeap d = true ↔ ∃ v : Int, d = JSNum.fin v ∧ 0x00100000 ≤ v ∧ v ≤ 0x01FFFFFF := by
  cases d with
  | nan => simp [isHeap, geFin, leFin]
  | fin v => simp [isHeap, geFin, leFin]
  | inf s => cases s <;> simp [isHeap, geFin, leFin]

theorem mipsInputHandler_some (mipsText : JSString) (r : MipsResult)
    (h : mipsInputHandler mipsText = some r) :
    (computeDynamicBase mipsText).dynamicBase = some r.dynamicBase ∧
    r.isHeap = isHeap r.dynamicBase ∧
    r.upper = (computeDynamicBase mipsText).upper ∧
    r.lower = (computeDynamicBase mipsText).lower ∧
    r.second = (secondBlockMatch mipsText).map
      (fun block =>
        { block := block, shownBase := shownSecondBase (secondBaseOf block) }) := by
  unfold mipsInputHandler at h
  cases hd : (computeDynamicBase mipsText).dynamicBase with
  | none => simp [hd] at h
  | some d =>
    simp only [hd, Option.some.injEq] at h
    subst h
    refine ⟨rfl, rfl, rfl, rfl, ?_⟩
    cases secondBlockMatch mipsText <;> rfl

/-- C7: when the handler resolves a dynamic base `d`, it classifies it as heap
exactly when `0x00100000 <= d <= 0x01FFFFFF`; 0x00100000 and 0x01FFFFFF are
heap, 0x000FFFFF and 0x02000000 are not. -/
theorem classification_range (mipsText : JSString) (r : MipsResult)
    (h : mipsInputHandler mipsText = some r) :
    (r.isHeap = true ↔
      ∃ v : Int, r.dynamicBase = JSNum.fin v ∧ 0x00100000 ≤ v ∧ v ≤ 0x01FFFFFF) ∧
    isHeap (JSNum.fin 0x00100000) = true ∧ isHeap (JSNum.fin 0x01FFFFFF) = true ∧
    isHeap (JSNum.fin 0x000FFFFF) = false ∧ isHeap (JSNum.fin 0x02000000) = false := by
  obtain ⟨_, h2, _⟩ := mipsInputHandler_some mipsText r h
  refine ⟨?_, by decide, by decide, by decide, by decide⟩
  rw [h2]
  exact isHeap_iff r.dynamicBase

set_option maxRecDepth 100000 in
/-- Witness of C7: the block with `lui a0,0x10` and `addiu a0,a0,0x0` resolves
to the lower boundary 0x00100000, classified as heap. -/
theorem classification_range_witness :
    mipsInputHandler "lui a0,0x10\naddiu a0,a0,0x0\naddiu v1,zero,0x3C\nsyscall".toList
      = some { dynamicBase := JSNum.fin 0x00100000, isHeap := true,
               upper := some (JSNum.fin 0x10), lower := some (JSNum.fin 0),
               second := none } ∧
    ((true = true ↔
      ∃ v : Int, JSNum.fin 0x00100000 = JSNum.fin v ∧ 0x00100000 ≤ v ∧ v ≤ 0x01FFFFFF) ∧
    isHeap (JSNum.fin 0x00100000) = true ∧ isHeap (JSNum.fin 0x01FFFFFF) = true ∧
    isHeap (JSNum.fin 0x000FFFFF) = false ∧ isHeap (JSNum.fin 0x02000000) = false) :=
  ⟨by decide,
   classification_range
     "lui a0,0x10\naddiu a0,a0,0x0\naddiu v1,zero,0x3C\nsyscall".toList
     { dynamicBase := JSNum.fin 0x00100000, isHeap := true,
       upper := some (JSNum.fin 0x10), lower := some (JSNum.fin 0), second := none }
     (by decide)⟩

/-! ### The loop of `computeDynamicBase` -/

theorem splitLines_ne_nil (s : JSString) : splitLines s ≠ [] := by
  cases s with
  | nil => simp [splitLines]
  | cons c cs =>
    simp only [splitLines]
    split
    · simp
    · split <;> simp

theorem splitLines_cons (c : Char) (cs : JSString) :
    splitLines (c :: cs)
      = if c = '\n' then [] :: splitLines cs
        else match splitLines cs with
          | [] => [[c]]
          | l :: ls => (c :: l) :: ls := rfl

theorem splitLines_append (t s : JSString) :
    splitLines (t ++ '\n' :: s) = splitLines t ++ splitLines s := by
  induction t with
  | nil => simp [splitLines]
  | cons c cs ih =>
    rw [List.cons_append, splitLines_cons, splitLines_cons]
    split
    · rw [ih]; simp
    · rw [ih]
      cases hs : splitLines cs with
      | nil => exact absurd hs (splitLines_ne_nil cs)
      | cons l ls => simp

theorem linesOf_append (t s : JSString) :
    linesOf (t ++ '\n' :: s) = linesOf t ++ linesOf s := by
  simp [linesOf, splitLines_append]

theorem scanLines_cons (prevLine : JSString) (upper lower : Option JSNum) (i : Nat)
    (line : JSString) (rest : List JSString) :
    scanLines prevLine upper lower i (line :: rest)
      = match includesSyscall line && v1Is3C prevLine, updateUpper line upper,
          updateLower line lower with
        | true, some u, some l =>
          { stop := some i, dynamicBase := some (JSNum.add (shl u 16) l),
            upper := updateUpper line upper, lower := updateLower line lower }
        | _, _, _ =>
          scanLines line (updateUpper line upper) (updateLower line lower) (i + 1) rest := by
  rfl

theorem scanLines_append (xs ys : List JSString) :
    ∀ (prevLine : JSString) (upper lower : Option JSNum) (i : Nat),
      (scanLines prevLine upper lower i xs).dynamicBase ≠ none →
      scanLines prevLine upper lower i (xs ++ ys) = scanLines prevLine upper lower i xs := by
  induction xs with
  | nil => intro p u l i h; simp [scanLines] at h
  | cons line rest ih =>
    intro p u l i h
    rw [List.cons_append, scanLines_cons, scanLines_cons]
    rw [scanLines_cons] at h
    split
    · rfl
    · rename_i hno
      split at h
      · rename_i b u1 l1 hb hu hl
        exact absurd hl (hno _ _ hb hu)
      · exact ih _ _ _ _ h

/-- C3: the first qualifying occurrence wins: when `computeDynamicBase(t)`
returns a dynamic base, `computeDynamicBase(t + "\n" + s)` returns the same
dynamic base, upper and lower, for every string `s`. -/
theorem first_qualifying_wins (t s : JSString)
    (h : (computeDynamicBase t).dynamicBase ≠ none) :
    computeDynamicBase (t ++ "\n".toList ++ s) = computeDynamicBase t := by
  have e : t ++ "\n".toList ++ s = t ++ '\n' :: s := by
    simp
  have h1 : (scanLines [] none none 0 (linesOf t)).dynamicBase ≠ none := h
  simp only [computeDynamicBase, scanText, e, linesOf_append,
    scanLines_append (linesOf t) (linesOf s) [] none none 0 h1]
theorem lastMatch_zero (m : JSString → Option JSString) (line : JSString)
    (rest : List JSString) (init : Option JSNum) :
    LastMatch m (line :: rest) 0 init
      (match m line with
        | some g => some (parseInt16 g)
        | none => init) := by
  cases hm : m line with
  | some g =>
    left
    refine ⟨0, g, Nat.le_refl _, by simpa using hm, rfl, ?_⟩
    intro k h1 h2
    omega
  | none =>
    right
    refine ⟨rfl, ?_⟩
    intro k hk
    have : k = 0 := by omega
    subst this
    simpa using hm

theorem lastMatch_succ (m : JSString → Option JSString) (line : JSString)
    (rest : List JSString) (n : Nat) (init result : Option JSNum)
    (h : LastMatch m rest n
      (match m line with
        | some g => some (parseInt16 g)
        | none => init) result) :
    LastMatch m (line :: rest) (n + 1) init result := by
  rcases h with ⟨j, g, hj, hg, hr, hk⟩ | ⟨hr, hk⟩
  · left
    refine ⟨j + 1, g, by omega, by simpa using hg, hr, ?_⟩
    intro k h1 h2
    obtain ⟨k', rfl⟩ : ∃ k', k = k' + 1 := ⟨k - 1, by omega⟩
    simpa using hk k' (by omega) (by omega)
  · cases hm : m line with
    | some g =>
      left
      refine ⟨0, g, Nat.zero_le _, by simpa using hm, by rw [hr, hm], ?_⟩
      intro k h1 h2
      obtain ⟨k', rfl⟩ : ∃ k', k = k' + 1 := ⟨k - 1, by omega⟩
      simpa using hk k' (by omega)
    | none =>
      right
      refine ⟨by rw [hr, hm], ?_⟩
      intro k h2
      cases k with
      | zero => simpa using hm
      | succ k' => simpa using hk k' (by omega)

/-- The state of the loop of `computeDynamicBase` when it stops with a
dynamic base. -/
theorem scanLines_stop (xs : List JSString) :
    ∀ (prevLine : JSString) (upper lower : Option JSNum) (i : Nat),
      (scanLines prevLine upper lower i xs).dynamicBase ≠ none →
      ∃ (n : Nat) (u l : JSNum), n < xs.length ∧
        scanLines prevLine upper lower i xs
          = { stop := some (i + n), dynamicBase := some (JSNum.add (shl u 16) l),
              upper := some u, lower := some l } ∧
        includesSyscall (xs.getD n []) = true ∧
        v1Is3C ((prevLine :: xs).getD n []) = true ∧
        LastMatch matchLUI xs n upper (some u) ∧
        LastMatch matchADDIU xs n lower (some l) := by
  induction xs with
  | nil => intro p u l i h; simp [scanLines] at h
  | cons line rest ih =>
    intro p u l i h
    rw [scanLines_cons] at h ⊢
    split
    · rename_i b u0 l0 u1 l1 hb hu hl
      simp only [Bool.and_eq_true] at hb
      refine ⟨0, u1, l1, by simp, by rw [hu, hl]; rfl, by simpa using hb.1,
        by simpa using hb.2, ?_, ?_⟩
      · have := lastMatch_zero matchLUI line rest u
        rw [← hu]; exact this
      · have := lastMatch_zero matchADDIU line rest l
        rw [← hl]; exact this
    · rename_i hno
      split at h
      · rename_i b u1 l1 hb hu hl
        exact absurd hl (hno _ _ hb hu)
      · obtain ⟨n, u1, l1, hn, hres, hs, hv, hU, hL⟩ := ih _ _ _ _ h
        refine ⟨n + 1, u1, l1, by simp; omega, ?_, by simpa using hs, ?_, ?_, ?_⟩
        · rw [hres]
          simp only [ScanResult.mk.injEq, Option.some.injEq, and_true]; omega
        · simpa using hv
        · exact lastMatch_succ matchLUI line rest n u (some u1) hU
        · exact lastMatch_succ matchADDIU line rest n l (some l1) hL
set_option maxRecDepth 100000 in
/-- Witness of C3: a second block after the first one does not change the
result. -/
theorem first_qualifying_wins_witness :
    (computeDynamicBase
        "lui a0,0x70\naddiu a0,a0,0x1234\naddiu v1,zero,0x3C\nsyscall".toList).dynamicBase
      ≠ none ∧
    computeDynamicBase
        ("lui a0,0x70\naddiu a0,a0,0x1234\naddiu v1,zero,0x3C\nsyscall".toList ++ "\n".toList
          ++ "lui a0,0x01\naddiu a0,a0,0x5678\naddiu v1,zero,0x3C\nsyscall".toList)
      = computeDynamicBase
          "lui a0,0x70\naddiu a0,a0,0x1234\naddiu v1,zero,0x3C\nsyscall".toList :=
  ⟨by decide,
   first_qualifying_wins
     "lui a0,0x70\naddiu a0,a0,0x1234\naddiu v1,zero,0x3C\nsyscall".toList
     "lui a0,0x01\naddiu a0,a0,0x5678\naddiu v1,zero,0x3C\nsyscall".toList (by decide)⟩

/-- The result of `computeDynamicBase` when it finds a dynamic base, in terms
of the lines of the text. -/
theorem computeDynamicBase_some (t : JSString) (d : JSNum)
    (h : (computeDynamicBase t).dynamicBase = some d) :
    ∃ (i : Nat) (u l : JSNum),
      (scanText t).stop = some i ∧ i < (linesOf t).length ∧
      includesSyscall ((linesOf t).getD i []) = true ∧
      v1Is3C (([] :: linesOf t).getD i []) = true ∧
      (computeDynamicBase t).upper = some u ∧ (computeDynamicBase t).lower = some l ∧
      d = JSNum.add (shl u 16) l ∧
      LastMatch matchLUI (linesOf t) i none (some u) ∧
      LastMatch matchADDIU (linesOf t) i none (some l) := by
  have h1 : (scanLines [] none none 0 (linesOf t)).dynamicBase ≠ none := by
    have : (scanLines [] none none 0 (linesOf t)).dynamicBase = some d := h
    rw [this]; simp
  obtain ⟨n, u, l, hn, hres, hs, hv, hU, hL⟩ := scanLines_stop (linesOf t) [] none none 0 h1
  have hd : (computeDynamicBase t).dynamicBase = some (JSNum.add (shl u 16) l) := by
    simp only [computeDynamicBase, scanText, hres]
  refine ⟨n, u, l, ?_, hn, hs, hv, ?_, ?_, ?_, hU, hL⟩
  · simp only [scanText, hres]; simp
  · simp only [computeDynamicBase, scanText, hres]
  · simp only [computeDynamicBase, scanText, hres]
  · rw [hd] at h
    exact (Option.some.inj h).symm

/-! ### Characters and the pieces of the patterns -/

theorem isHexDigit_iff (c : Char) :
    isHexDigit c = true ↔
      (48 ≤ c.toNat ∧ c.toNat ≤ 57) ∨ (65 ≤ c.toNat ∧ c.toNat ≤ 70) ∨
        (97 ≤ c.toNat ∧ c.toNat ≤ 102) := by
  simp [isHexDigit, or_assoc]

theorem isWhiteSpace_of_hex (c : Char) (h : isHexDigit c = true) : isWhiteSpace c = false := by
  rw [isHexDigit_iff] at h
  rw [← Bool.not_eq_true]
  simp only [isWhiteSpace, Bool.or_eq_true, Bool.and_eq_true, beq_iff_eq, decide_eq_true_eq]
  omega

theorem ciEq_self (c : Char) : ciEq c c = true := by
  simp [ciEq]

theorem lowerCode_hex_le (c : Char) (h : isHexDigit c = true) : lowerCode c.toNat ≤ 102 := by
  rw [isHexDigit_iff] at h
  unfold lowerCode
  split <;> omega

theorem ciEq_of_hex (p c : Char) (h : isHexDigit c = true)
    (hp : 103 ≤ lowerCode p.toNat) : ciEq p c = false := by
  have := lowerCode_hex_le c h
  rw [← Bool.not_eq_true]
  simp only [ciEq, beq_iff_eq]
  omega

theorem litPrefix_append (p s : JSString) : litPrefix p (p ++ s) = some s := by
  induction p with
  | nil => cases s <;> rfl
  | cons c cs ih => simp [litPrefix, ciEq_self, ih]

theorem takeHex_all (K : JSString) (hK : ∀ c ∈ K, isHexDigit c = true) :
    ∀ n, K.length ≤ n → takeHex n K = K := by
  induction K with
  | nil => intro n _; cases n <;> rfl
  | cons c cs ih =>
    intro n hn
    cases n with
    | zero => simp at hn
    | succ n =>
      simp only [takeHex, hK c (List.mem_cons_self _ _), if_true]
      rw [ih (fun c hc => hK c (List.mem_cons_of_mem _ hc)) n (by simpa using hn)]

theorem takeWhile_hex_all (K : JSString) (hK : ∀ c ∈ K, isHexDigit c = true) :
    K.takeWhile isHexDigit = K := by
  induction K with
  | nil => rfl
  | cons c cs ih =>
    simp only [List.takeWhile, hK c (List.mem_cons_self _ _)]
    rw [ih (fun c hc => hK c (List.mem_cons_of_mem _ hc))]

theorem hexDigitValue_lt (c : Char) (h : isHexDigit c = true) : hexDigitValue c < 16 := by
  rw [isHexDigit_iff] at h
  unfold hexDigitValue
  simp only
  split
  · omega
  · split <;> omega

theorem hexValue_foldl_lt (K : JSString) (hK : ∀ c ∈ K, isHexDigit c = true) :
    ∀ acc n, acc < 16 ^ n →
      K.foldl (fun a c => a * 16 + hexDigitValue c) acc < 16 ^ (n + K.length) := by
  induction K with
  | nil => intro acc n h; simpa using h
  | cons c cs ih =>
    intro acc n h
    have hc := hexDigitValue_lt c (hK c (List.mem_cons_self _ _))
    have step : acc * 16 + hexDigitValue c < 16 ^ (n + 1) := by
      rw [Nat.pow_succ]; omega
    have := ih (fun c hc => hK c (List.mem_cons_of_mem _ hc)) _ (n + 1) step
    simp only [List.foldl, List.length_cons]
    have e : n + (cs.length + 1) = n + 1 + cs.length := by omega
    rw [e]; exact this

theorem hexValue_lt (K : JSString) (hK : ∀ c ∈ K, isHexDigit c = true) :
    hexValue K < 16 ^ K.length := by
  have := hexValue_foldl_lt K hK 0 0 (by simp)
  simpa [hexValue] using this
theorem hex_ne (c d : Char) (h : isHexDigit c = true) (hd : isHexDigit d = false) : c ≠ d := by
  rintro rfl
  rw [h] at hd
  exact absurd hd (by simp)

theorem stripHexPrefix_hex (K : JSString) (hK : ∀ c ∈ K, isHexDigit c = true) :
    stripHexPrefix K = K := by
  match K, hK with
  | [], _ => rfl
  | [_], _ => rfl
  | c0 :: c1 :: r, hK' =>
    have h1 : isHexDigit c1 = true := hK' c1 (by simp)
    have hx : c1 ≠ 'x' := hex_ne c1 'x' h1 (by decide)
    have hX : c1 ≠ 'X' := hex_ne c1 'X' h1 (by decide)
    simp [stripHexPrefix, hx, hX]

theorem isEmpty_of_ne_nil (K : JSString) (hne : K ≠ []) : K.isEmpty = false := by
  cases K with
  | nil => exact absurd rfl hne
  | cons _ _ => rfl

theorem parseDigits16_hex (negative : Bool) (K : JSString)
    (hK : ∀ c ∈ K, isHexDigit c = true) (hne : K ≠ []) :
    parseDigits16 negative K
      = if negative then toNumber (-(hexValue K : Int)) else toNumber (hexValue K : Int) := by
  unfold parseDigits16
  simp only [stripHexPrefix_hex K hK, takeWhile_hex_all K hK, isEmpty_of_ne_nil K hne]
  simp

theorem parseDigits16_0x (negative : Bool) (D : JSString)
    (hD : ∀ c ∈ D, isHexDigit c = true) (hne : D ≠ []) :
    parseDigits16 negative ('0' :: 'x' :: D)
      = if negative then toNumber (-(hexValue D : Int)) else toNumber (hexValue D : Int) := by
  have hs : stripHexPrefix ('0' :: 'x' :: D) = D := by simp [stripHexPrefix]
  unfold parseDigits16
  simp only [hs, takeWhile_hex_all D hD, isEmpty_of_ne_nil D hne]
  simp

theorem parseInt16_hex (K : JSString) (hK : ∀ c ∈ K, isHexDigit c = true) (hne : K ≠ []) :
    parseInt16 K = toNumber (hexValue K : Int) := by
  cases K with
  | nil => exact absurd rfl hne
  | cons c r =>
    have hc : isHexDigit c = true := hK c (by simp)
    have hw : isWhiteSpace c = false := isWhiteSpace_of_hex c hc
    have hm : c ≠ '-' := hex_ne c '-' hc (by decide)
    have hp : c ≠ '+' := hex_ne c '+' hc (by decide)
    unfold parseInt16 trimStart
    simp only [List.dropWhile, hw, hm, hp, if_false]
    rw [parseDigits16_hex false (c :: r) hK hne]
    simp

theorem parseInt16_0x (D : JSString) (hD : ∀ c ∈ D, isHexDigit c = true) (hne : D ≠ []) :
    parseInt16 ('0' :: 'x' :: D) = toNumber (hexValue D : Int) := by
  unfold parseInt16 trimStart
  have hw : isWhiteSpace '0' = false := by decide
  have hm : ('0' : Char) ≠ '-' := by decide
  have hp : ('0' : Char) ≠ '+' := by decide
  simp only [List.dropWhile, hw, hm, hp, if_false]
  rw [parseDigits16_0x false D hD hne]
  simp

theorem parseInt16_neg0x (D : JSString) (hD : ∀ c ∈ D, isHexDigit c = true) (hne : D ≠ []) :
    parseInt16 ('-' :: '0' :: 'x' :: D) = toNumber (-(hexValue D : Int)) := by
  unfold parseInt16 trimStart
  have hw : isWhiteSpace '-' = false := by decide
  simp only [List.dropWhile, hw, if_true]
  rw [parseDigits16_0x true D hD hne]
  simp

/-! ### The call marker and the line before it -/

theorem firstMatch_of_some {α : Type} (m : JSString → Option α) (s : JSString) (r : α)
    (h : m s = some r) : firstMatch m s = some r := by
  cases s with
  | nil => simpa [firstMatch] using h
  | cons c cs => simp [firstMatch, h]

theorem v1At_line (K : JSString) (hK : ∀ c ∈ K, isHexDigit c = true) (hne : K ≠ [])
    (hlen : K.length ≤ 2) : v1At ("addiu v1,zero,0x".toList ++ K) = some K := by
  have e : "addiu v1,zero,0x".toList ++ K
      = "addiu".toList ++ (' ' :: ("v1,zero,0x".toList ++ K)) := by
    simp
  have hw : whiteSpace1 (' ' :: ("v1,zero,0x".toList ++ K)) = some ("v1,zero,0x".toList ++ K) := by
    have h1 : isWhiteSpace ' ' = true := by decide
    have h2 : isWhiteSpace 'v' = false := by decide
    have e2 : "v1,zero,0x".toList ++ K = 'v' :: ("1,zero,0x".toList ++ K) := by simp
    rw [e2]
    simp [whiteSpace1, h1, List.dropWhile, h2]
  unfold v1At
  rw [e, litPrefix_append]
  simp only [hw, litPrefix_append, takeHex_all K hK 2 hlen, isEmpty_of_ne_nil K hne]
  simp

theorem v1Is3C_other (K : JSString) (hK : ∀ c ∈ K, isHexDigit c = true) (hne : K ≠ [])
    (hlen : K.length ≤ 2) (hv : hexValue K ≠ 0x3C) :
    v1Is3C ("addiu v1,zero,0x".toList ++ K) = false := by
  have hm : matchV1 ("addiu v1,zero,0x".toList ++ K) = some K :=
    firstMatch_of_some _ _ _ (v1At_line K hK hne hlen)
  have hlt : hexValue K < 16 ^ 2 :=
    Nat.lt_of_lt_of_le (hexValue_lt K hK) (Nat.pow_le_pow_right (by decide) hlen)
  have hp : parseInt16 K = JSNum.fin (hexValue K : Int) := by
    rw [parseInt16_hex K hK hne]
    apply toNumber_exact
    simp only [Int.natAbs_ofNat]
    omega
  unfold v1Is3C
  rw [hm]
  simp only [hp, strictEq]
  simp only [decide_eq_false_iff_not]
  intro h
  apply hv
  exact_mod_cast h

theorem scanLines_none (xs : List JSString) :
    ∀ (prevLine : JSString) (upper lower : Option JSNum) (i : Nat),
      (∀ n line, xs[n]? = some line → includesSyscall line = true →
        v1Is3C ((prevLine :: xs).getD n []) = false) →
      (scanLines prevLine upper lower i xs).dynamicBase = none := by
  induction xs with
  | nil => intro p u l i _; rfl
  | cons line rest ih =>
    intro p u l i h
    rw [scanLines_cons]
    split
    · rename_i b u0 l0 u1 l1 hb hu hl
      simp only [Bool.and_eq_true] at hb
      have := h 0 line (by simp) hb.1
      simp only [List.getD_cons_zero] at this
      rw [this] at hb
      exact absurd hb.2 (by simp)
    · apply ih
      intro n ln hn hs
      have := h (n + 1) ln (by simpa using hn) hs
      simpa using this

/-- C2 (amended): when every line containing the call marker is immediately
preceded by a line `addiu v1,zero,0xK` whose immediate `K` has one or two
hexadecimal digits and a value other than 0x3C, `computeDynamicBase` returns
no dynamic base, whatever upper and lower immediates were set before. -/
theorem other_syscall_number_absent (t : JSString)
    (h : SyscallsPreceded (fun K => K.length ≤ 2 ∧ hexValue K ≠ 0x3C) (linesOf t)) :
    (computeDynamicBase t).dynamicBase = none := by
  show (scanLines [] none none 0 (linesOf t)).dynamicBase = none
  apply scanLines_none
  intro n line hn hs
  obtain ⟨K, hpos, hprev, hne, hK, hlen, hv⟩ := h n line hn hs
  obtain ⟨n', rfl⟩ : ∃ n', n = n' + 1 := ⟨n - 1, by omega⟩
  simp only [Nat.add_sub_cancel] at hprev
  have : ([] :: linesOf t).getD (n' + 1) [] = "addiu v1,zero,0x".toList ++ K := by
    simp [List.getD, hprev]
  rw [this]
  exact v1Is3C_other K hK hne hlen hv
theorem syscallsPreceded_four (ok : JSString → Prop) (a b c K : JSString)
    (ha : includesSyscall a = false) (hb : includesSyscall b = false)
    (hk : includesSyscall ("addiu v1,zero,0x".toList ++ K) = false)
    (hne : K ≠ []) (hK : ∀ x ∈ K, isHexDigit x = true) (hok : ok K) :
    SyscallsPreceded ok [a, b, "addiu v1,zero,0x".toList ++ K, c] := by
  intro i line hi hs
  match i, hi with
  | 0, hi =>
    simp only [List.getElem?_cons_zero, Option.some.injEq] at hi
    rw [← hi, ha] at hs
    exact absurd hs (by simp)
  | 1, hi =>
    simp only [List.getElem?_cons_succ, List.getElem?_cons_zero, Option.some.injEq] at hi
    rw [← hi, hb] at hs
    exact absurd hs (by simp)
  | 2, hi =>
    simp only [List.getElem?_cons_succ, List.getElem?_cons_zero, Option.some.injEq] at hi
    rw [← hi, hk] at hs
    exact absurd hs (by simp)
  | 3, _ => exact ⟨K, by decide, by simp, hne, hK, hok⟩
  | n + 4, hi => simp at hi

set_option maxRecDepth 100000 in
/-- Witness of C2: `addiu v1,zero,0x3D` before `syscall`. -/
theorem other_syscall_number_absent_witness :
    SyscallsPreceded (fun K => K.length ≤ 2 ∧ hexValue K ≠ 0x3C)
      (linesOf "lui a0,0x71\naddiu a0,a0,-0x10\naddiu v1,zero,0x3D\nsyscall".toList) ∧
    (computeDynamicBase
      "lui a0,0x71\naddiu a0,a0,-0x10\naddiu v1,zero,0x3D\nsyscall".toList).dynamicBase
      = none :=
  have hl : linesOf "lui a0,0x71\naddiu a0,a0,-0x10\naddiu v1,zero,0x3D\nsyscall".toList
      = ["lui a0,0x71".toList, "addiu a0,a0,-0x10".toList,
          "addiu v1,zero,0x".toList ++ "3D".toList, "syscall".toList] := by decide
  have hp : SyscallsPreceded (fun K => K.length ≤ 2 ∧ hexValue K ≠ 0x3C)
      (linesOf "lui a0,0x71\naddiu a0,a0,-0x10\naddiu v1,zero,0x3D\nsyscall".toList) := by
    rw [hl]
    exact syscallsPreceded_four _ _ _ _ _ (by decide) (by decide) (by decide) (by decide)
      (by decide) (by decide)
  ⟨hp, other_syscall_number_absent _ hp⟩

set_option maxRecDepth 100000 in
/-- C2 (counterexample): the line before `syscall` is `addiu v1,zero,0x3C0`,
whose immediate 0x3C0 is not 0x3C, yet `computeDynamicBase` returns the dynamic
base 0x00701234: the pattern reads at most two digits of the immediate. -/
theorem other_syscall_number_three_digits :
    SyscallsPreceded (fun K => hexValue K ≠ 0x3C)
      (linesOf "lui a0,0x70\naddiu a0,a0,0x1234\naddiu v1,zero,0x3C0\nsyscall".toList) ∧
    (computeDynamicBase
      "lui a0,0x70\naddiu a0,a0,0x1234\naddiu v1,zero,0x3C0\nsyscall".toList).dynamicBase
      = some (JSNum.fin 0x00701234) := by
  have hl : linesOf "lui a0,0x70\naddiu a0,a0,0x1234\naddiu v1,zero,0x3C0\nsyscall".toList
      = ["lui a0,0x70".toList, "addiu a0,a0,0x1234".toList,
          "addiu v1,zero,0x".toList ++ "3C0".toList, "syscall".toList] := by decide
  refine ⟨?_, by decide⟩
  rw [hl]
  exact syscallsPreceded_four _ _ _ _ _ (by decide) (by decide) (by decide) (by decide)
    (by decide) (by decide)

/-! ### The range of the dynamic base -/

theorem firstMatch_some {α : Type} (m : JSString → Option α) (r : α) :
    ∀ s, firstMatch m s = some r → ∃ s1, m s1 = some r := by
  intro s
  induction s with
  | nil => intro h; exact ⟨[], by simpa [firstMatch] using h⟩
  | cons c cs ih =>
    intro h
    simp only [firstMatch] at h
    split at h
    · rename_i r1 hr
      exact ⟨c :: cs, by rw [hr, h]⟩
    · exact ih h

theorem takeHex_hex (n : Nat) : ∀ s, ∀ c ∈ takeHex n s, isHexDigit c = true := by
  induction n with
  | zero => intro s c hc; simp [takeHex] at hc
  | succ n ih =>
    intro s c hc
    cases s with
    | nil => simp [takeHex] at hc
    | cons d ds =>
      simp only [takeHex] at hc
      split at hc
      · rename_i hd
        rcases List.mem_cons.mp hc with rfl | h2
        · exact hd
        · exact ih ds c h2
      · simp at hc

theorem takeHex_length (n : Nat) : ∀ s, (takeHex n s).length ≤ n := by
  induction n with
  | zero => intro s; simp [takeHex]
  | succ n ih =>
    intro s
    cases s with
    | nil => simp [takeHex]
    | cons d ds =>
      simp only [takeHex]
      split
      · simpa using ih ds
      · simp

theorem luiAt_some (s g : JSString) (h : luiAt s = some g) :
    g ≠ [] ∧ (∀ c ∈ g, isHexDigit c = true) ∧ g.length ≤ 4 := by
  unfold luiAt at h
  split at h
  · exact absurd h (by simp)
  · split at h
    · exact absurd h (by simp)
    · split at h
      · exact absurd h (by simp)
      · rename_i r3 _
        simp only at h
        split at h
        · exact absurd h (by simp)
        · rename_i hne
          have hg : takeHex 4 r3 = g := Option.some.inj h
          rw [← hg]
          refine ⟨?_, takeHex_hex 4 r3, takeHex_length 4 r3⟩
          intro h0
          rw [h0] at hne
          exact hne rfl

/-- The immediate that the upper-load pattern reads is an integer of at most
four hexadecimal digits. -/
theorem matchLUI_value (line g : JSString) (h : matchLUI line = some g) :
    parseInt16 g = JSNum.fin (hexValue g : Int) ∧ hexValue g < 0x10000 := by
  obtain ⟨s1, hs1⟩ := firstMatch_some luiAt g line h
  obtain ⟨hne, hhex, hlen⟩ := luiAt_some s1 g hs1
  have hlt : hexValue g < 16 ^ 4 :=
    Nat.lt_of_lt_of_le (hexValue_lt g hhex) (Nat.pow_le_pow_right (by decide) hlen)
  refine ⟨?_, by omega⟩
  rw [parseInt16_hex g hhex hne]
  apply toNumber_exact
  simp only [Int.natAbs_ofNat]
  omega

theorem shl16_small (u : Int) (h0 : 0 ≤ u) (h1 : u < 0x8000) :
    shl (JSNum.fin u) 16 = JSNum.fin (u * 65536) := by
  unfold shl toInt32 toUint32
  have e : (2 : Int) ^ (16 % 32) = 65536 := by norm_num
  simp only [e]
  congr 1
  split <;> split <;> omega

theorem add_small (a b : Int) (h : (a + b).natAbs ≤ 2 ^ 53) :
    JSNum.add (JSNum.fin a) (JSNum.fin b) = JSNum.fin (a + b) := by
  simp only [JSNum.add]
  exact toNumber_exact _ h

/-- C9 (amended): when `computeDynamicBase` returns a dynamic base `d`, the
returned upper is an integer `u` with `0 <= u <= 0xFFFF`; when moreover
`u < 0x8000` and the returned lower is an integer `l`, negative or not, with
`0 <= u * 65536 + l < 2^32`, then `d = u * 65536 + l`, so `0 <= d < 2^32`. -/
theorem dynamicBase_32bit_when_sum_in_range (t : JSString) (d : JSNum)
    (h : (computeDynamicBase t).dynamicBase = some d) :
    ∃ u : Int, (computeDynamicBase t).upper = some (JSNum.fin u) ∧ 0 ≤ u ∧ u ≤ 0xFFFF ∧
      ∀ l : Int, u < 0x8000 → (computeDynamicBase t).lower = some (JSNum.fin l) →
        0 ≤ u * 65536 + l → u * 65536 + l < 2 ^ 32 →
        ∃ v : Int, d = JSNum.fin v ∧ v = u * 65536 + l ∧ 0 ≤ v ∧ v < 2 ^ 32 := by
  obtain ⟨i, u, l, _, _, _, _, hu, hl, hd, hU, _⟩ := computeDynamicBase_some t d h
  rcases hU with ⟨j, g, _, hg, hr, _⟩ | ⟨hr, _⟩
  · cases hj : (linesOf t)[j]? with
    | none => rw [hj] at hg; exact absurd hg (by simp)
    | some line =>
      rw [hj] at hg
      obtain ⟨hp, hlt⟩ := matchLUI_value line g hg
      have hu' : u = JSNum.fin (hexValue g : Int) := by
        rw [← hp]; exact Option.some.inj hr
      refine ⟨(hexValue g : Int), by rw [hu, hu'], by omega, by omega, ?_⟩
      intro l' hsmall hl' h0 h1
      have : l = JSNum.fin l' := by
        rw [hl] at hl'; exact Option.some.inj hl'
      refine ⟨(hexValue g : Int) * 65536 + l', ?_, rfl, h0, h1⟩
      rw [hd, hu', this, shl16_small _ (by omega) hsmall, add_small _ _ (by omega)]
  · exact absurd hr (by simp)

set_option maxRecDepth 100000 in
/-- Witness of C9: the block with 0x71 and the negative lower immediate -0x10,
whose base is 0x0070FFF0. -/
theorem dynamicBase_32bit_when_sum_in_range_witness :
    (computeDynamicBase
      "lui a0,0x71\naddiu a0,a0,-0x10\naddiu v1,zero,0x3C\nsyscall".toList).dynamicBase
      = some (JSNum.fin 0x0070FFF0) ∧
    (computeDynamicBase
      "lui a0,0x71\naddiu a0,a0,-0x10\naddiu v1,zero,0x3C\nsyscall".toList).lower
      = some (JSNum.fin (-0x10)) ∧
    ∃ u : Int,
      (computeDynamicBase
        "lui a0,0x71\naddiu a0,a0,-0x10\naddiu v1,zero,0x3C\nsyscall".toList).upper
        = some (JSNum.fin u) ∧ 0 ≤ u ∧ u ≤ 0xFFFF ∧
      ∀ l : Int, u < 0x8000 →
        (computeDynamicBase
          "lui a0,0x71\naddiu a0,a0,-0x10\naddiu v1,zero,0x3C\nsyscall".toList).lower
          = some (JSNum.fin l) →
        0 ≤ u * 65536 + l → u * 65536 + l < 2 ^ 32 →
        ∃ v : Int, JSNum.fin 0x0070FFF0 = JSNum.fin v ∧ v = u * 65536 + l ∧ 0 ≤ v ∧
          v < 2 ^ 32 :=
  ⟨by decide, by decide,
   dynamicBase_32bit_when_sum_in_range
     "lui a0,0x71\naddiu a0,a0,-0x10\naddiu v1,zero,0x3C\nsyscall".toList
     (JSNum.fin 0x0070FFF0) (by decide)⟩

set_option maxRecDepth 100000 in
/-- C9 (counterexample): with a negative lower immediate the dynamic base is
negative, and with a long lower immediate it is `2^32` or more. -/
theorem dynamicBase_outside_32bit :
    (computeDynamicBase
      "lui a0,0x0\naddiu a0,a0,-0x10\naddiu v1,zero,0x3C\nsyscall".toList).dynamicBase
      = some (JSNum.fin (-16)) ∧
    (computeDynamicBase
      "lui a0,0x70\naddiu a0,a0,0x100000000\naddiu v1,zero,0x3C\nsyscall".toList).dynamicBase
      = some (JSNum.fin (2 ^ 32 + 0x00700000)) ∧
    ¬ (0 ≤ (-16 : Int) ∧ (-16 : Int) < 2 ^ 32) ∧
    ¬ ((2 ^ 32 + 0x00700000 : Int) < 2 ^ 32) := by
  refine ⟨by decide, by decide, by decide, by decide⟩

/-! ### The four-line block -/

theorem splitLines_single (a : JSString) (h : ∀ c ∈ a, c ≠ '\n') : splitLines a = [a] := by
  induction a with
  | nil => rfl
  | cons c cs ih =>
    rw [splitLines_cons, if_neg (h c (by simp)), ih (fun x hx => h x (by simp [hx]))]

theorem trim_eq_self (s rest : JSString) (c0 x : Char) (rest0 : JSString)
    (hs : s = c0 :: rest0) (h0 : isWhiteSpace c0 = false)
    (hr : s.reverse = x :: rest) (hx : isWhiteSpace x = false) : trim s = s := by
  have h1 : trimStart s = s := by
    rw [hs]; simp [trimStart, List.dropWhile, h0]
  unfold trim
  rw [h1, hr]
  simp only [List.dropWhile, hx]
  rw [← hr, List.reverse_reverse]

theorem firstMatch_none {α : Type} (m : JSString → Option α) (P : Char → Bool)
    (hnil : m [] = none) (hm : ∀ c cs, P c = false → m (c :: cs) = none) :
    ∀ s, (∀ c ∈ s, P c = false) → firstMatch m s = none := by
  intro s
  induction s with
  | nil => intro _; simpa [firstMatch] using hnil
  | cons c cs ih =>
    intro h
    simp only [firstMatch, hm c cs (h c (by simp))]
    exact ih (fun x hx => h x (by simp [hx]))

theorem matchLUI_none (s : JSString) (h : ∀ c ∈ s, ciEq 'l' c = false) : matchLUI s = none := by
  apply firstMatch_none luiAt (fun c => ciEq 'l' c) (by decide) _ s h
  intro c cs hc
  have hc1 : ciEq 'l' c = false := hc
  have : litPrefix "lui".toList (c :: cs) = none := by
    show litPrefix ('l' :: "ui".toList) (c :: cs) = none
    simp [litPrefix, hc1]
  unfold luiAt
  rw [this]

theorem includesSyscall_false (s : JSString) (h : ∀ c ∈ s, ciEq 's' c = false) :
    includesSyscall s = false := by
  have : firstMatch (fun s => litPrefix "syscall".toList s) s = none := by
    apply firstMatch_none _ (fun c => ciEq 's' c) (by decide) _ s h
    intro c cs hc
    have hc1 : ciEq 's' c = false := hc
    show litPrefix ('s' :: "yscall".toList) (c :: cs) = none
    simp [litPrefix, hc1]
  unfold includesSyscall
  rw [this]
  rfl

theorem luiAt_line (U : JSString) (hU : ∀ c ∈ U, isHexDigit c = true) (hne : U ≠ [])
    (hlen : U.length ≤ 4) : luiAt ("lui a0,0x".toList ++ U) = some U := by
  have e : "lui a0,0x".toList ++ U = "lui".toList ++ (' ' :: ("a0,0x".toList ++ U)) := by
    simp
  have hw : whiteSpace1 (' ' :: ("a0,0x".toList ++ U)) = some ("a0,0x".toList ++ U) := by
    have h1 : isWhiteSpace ' ' = true := by decide
    have h2 : isWhiteSpace 'a' = false := by decide
    have e2 : "a0,0x".toList ++ U = 'a' :: ("0,0x".toList ++ U) := by simp
    rw [e2]
    simp [whiteSpace1, h1, List.dropWhile, h2]
  unfold luiAt
  rw [e, litPrefix_append]
  simp only [hw, litPrefix_append, takeHex_all U hU 4 hlen, isEmpty_of_ne_nil U hne]
  simp

theorem signedHexAt_text (negative : Bool) (D : JSString)
    (hD : ∀ c ∈ D, isHexDigit c = true) (hne : D ≠ []) :
    signedHexAt (signedHexText negative D) = some (signedHexText negative D) := by
  cases negative with
  | false =>
    have e : signedHexText false D = '0' :: 'x' :: D := by simp [signedHexText]
    have hl : litPrefix "0x".toList ('0' :: 'x' :: D) = some D :=
      litPrefix_append "0x".toList D
    rw [e]
    unfold signedHexAt
    have h0 : decide (('0' : Char) = '-') = false := by decide
    simp only [h0, Bool.false_eq_true, if_false, hl, takeWhile_hex_all D hD,
      isEmpty_of_ne_nil D hne]
    simp
    omega
  | true =>
    have e : signedHexText true D = '-' :: '0' :: 'x' :: D := by simp [signedHexText]
    have hl : litPrefix "0x".toList ('0' :: 'x' :: D) = some D :=
      litPrefix_append "0x".toList D
    rw [e]
    unfold signedHexAt
    simp only [decide_True, if_true, List.drop_succ_cons, List.drop_zero, hl,
      takeWhile_hex_all D hD, isEmpty_of_ne_nil D hne]
    simp
    omega

theorem addiuAt_line (negative : Bool) (D : JSString)
    (hD : ∀ c ∈ D, isHexDigit c = true) (hne : D ≠ []) :
    addiuAt ("addiu a0,a0,".toList ++ signedHexText negative D)
      = some (signedHexText negative D) := by
  have e : "addiu a0,a0,".toList ++ signedHexText negative D
      = "addiu".toList ++ (' ' :: ("a0,a0,".toList ++ signedHexText negative D)) := by
    simp
  have hw : whiteSpace1 (' ' :: ("a0,a0,".toList ++ signedHexText negative D))
      = some ("a0,a0,".toList ++ signedHexText negative D) := by
    have h1 : isWhiteSpace ' ' = true := by decide
    have h2 : isWhiteSpace 'a' = false := by decide
    have e2 : "a0,a0,".toList ++ signedHexText negative D
        = 'a' :: ("0,a0,".toList ++ signedHexText negative D) := by simp
    rw [e2]
    simp [whiteSpace1, h1, List.dropWhile, h2]
  unfold addiuAt
  rw [e, litPrefix_append]
  simp only [hw, litPrefix_append]
  exact signedHexAt_text negative D hD hne

theorem parseInt16_signedHexText (negative : Bool) (D : JSString)
    (hD : ∀ c ∈ D, isHexDigit c = true) (hne : D ≠ []) :
    parseInt16 (signedHexText negative D) = toNumber (signedHexValue negative D) := by
  cases negative with
  | false =>
    have e : signedHexText false D = '0' :: 'x' :: D := by simp [signedHexText]
    rw [e, parseInt16_0x D hD hne]; simp [signedHexValue]
  | true =>
    have e : signedHexText true D = '-' :: '0' :: 'x' :: D := by simp [signedHexText]
    rw [e, parseInt16_neg0x D hD hne]; simp [signedHexValue]
theorem scanLines_cons_next (prevLine : JSString) (upper lower : Option JSNum) (i : Nat)
    (line : JSString) (rest : List JSString)
    (h : (includesSyscall line && v1Is3C prevLine) = false) :
    scanLines prevLine upper lower i (line :: rest)
      = scanLines line (updateUpper line upper) (updateLower line lower) (i + 1) rest := by
  rw [scanLines_cons, h]

theorem scanLines_cons_stop (prevLine : JSString) (upper lower : Option JSNum) (i : Nat)
    (line : JSString) (rest : List JSString) (u l : JSNum)
    (h : (includesSyscall line && v1Is3C prevLine) = true)
    (hu : updateUpper line upper = some u) (hl : updateLower line lower = some l) :
    scanLines prevLine upper lower i (line :: rest)
      = { stop := some i, dynamicBase := some (JSNum.add (shl u 16) l),
          upper := some u, lower := some l } := by
  rw [scanLines_cons, h, hu, hl]

theorem linesOf_line (s rest rest0 : JSString) (c0 x : Char)
    (hnl : ∀ c ∈ s, c ≠ '\n') (hs : s = c0 :: rest0) (h0 : isWhiteSpace c0 = false)
    (hr : s.reverse = x :: rest) (hx : isWhiteSpace x = false) : linesOf s = [s] := by
  simp [linesOf, splitLines_single s hnl, trim_eq_self s rest c0 x rest0 hs h0 hr hx]

theorem reverse_append_hex (pre D : JSString) (hD : ∀ c ∈ D, isHexDigit c = true)
    (hne : D ≠ []) :
    ∃ x rest, (pre ++ D).reverse = x :: rest ∧ isWhiteSpace x = false := by
  cases hrev : D.reverse with
  | nil =>
    have : D = [] := by simpa using hrev
    exact absurd this hne
  | cons x r =>
    have hx : x ∈ D := by
      have : x ∈ D.reverse := by rw [hrev]; simp
      simpa using this
    exact ⟨x, r ++ pre.reverse, by simp [hrev], isWhiteSpace_of_hex x (hD x hx)⟩

theorem hex_ne_newline (c : Char) (h : isHexDigit c = true) : c ≠ '\n' :=
  hex_ne c '\n' h (by decide)

theorem linesOf_primaryBlockText (U D : JSString) (negative : Bool)
    (hU : ∀ c ∈ U, isHexDigit c = true) (hUne : U ≠ [])
    (hD : ∀ c ∈ D, isHexDigit c = true) (hDne : D ≠ []) :
    linesOf (primaryBlockText U negative D)
      = ["lui a0,0x".toList ++ U, "addiu a0,a0,".toList ++ signedHexText negative D,
          "addiu v1,zero,0x3C".toList, "syscall".toList] := by
  have e : primaryBlockText U negative D
      = ("lui a0,0x".toList ++ U) ++ '\n' ::
          (("addiu a0,a0,".toList ++ signedHexText negative D) ++ '\n' ::
            "addiu v1,zero,0x3C\nsyscall".toList) := by
    simp [primaryBlockText]
  have h1 : linesOf ("lui a0,0x".toList ++ U) = ["lui a0,0x".toList ++ U] := by
    obtain ⟨x, rest, hr, hx⟩ := reverse_append_hex "lui a0,0x".toList U hU hUne
    refine linesOf_line _ rest ("ui a0,0x".toList ++ U) 'l' x ?_ (by simp) (by decide) hr hx
    intro c hc
    rcases List.mem_append.mp hc with h | h
    · exact (by decide : ∀ c ∈ "lui a0,0x".toList, c ≠ '\n') c h
    · exact hex_ne_newline c (hU c h)
  have h2 : linesOf ("addiu a0,a0,".toList ++ signedHexText negative D)
      = ["addiu a0,a0,".toList ++ signedHexText negative D] := by
    have e2 : "addiu a0,a0,".toList ++ signedHexText negative D
        = ("addiu a0,a0,".toList ++ ((if negative then "-".toList else []) ++ "0x".toList))
            ++ D := by
      simp [signedHexText]
    obtain ⟨x, rest, hr, hx⟩ := reverse_append_hex
      ("addiu a0,a0,".toList ++ ((if negative then "-".toList else []) ++ "0x".toList)) D hD hDne
    rw [← e2] at hr
    refine linesOf_line _ rest ("ddiu a0,a0,".toList ++ signedHexText negative D) 'a' x ?_
      (by simp) (by decide) hr hx
    intro c hc
    rw [e2] at hc
    have hpre : ∀ b : Bool, ∀ c ∈ "addiu a0,a0,".toList
        ++ ((if b then "-".toList else []) ++ "0x".toList), c ≠ '\n' := by
      intro b; cases b <;> decide
    rcases List.mem_append.mp hc with h | h
    · exact hpre negative c h
    · exact hex_ne_newline c (hD c h)
  have h3 : linesOf "addiu v1,zero,0x3C\nsyscall".toList
      = ["addiu v1,zero,0x3C".toList, "syscall".toList] := by decide
  rw [e, linesOf_append, linesOf_append, h1, h2, h3]
  rfl
theorem updateUpper_of_none (line : JSString) (upper : Option JSNum)
    (h : matchLUI line = none) : updateUpper line upper = upper := by
  unfold updateUpper; rw [h]

theorem updateLower_of_none (line : JSString) (lower : Option JSNum)
    (h : matchADDIU line = none) : updateLower line lower = lower := by
  unfold updateLower; rw [h]

theorem addiuLine_no_l (negative : Bool) (D : JSString) (hD : ∀ c ∈ D, isHexDigit c = true) :
    ∀ c ∈ "addiu a0,a0,".toList ++ signedHexText negative D, ciEq 'l' c = false := by
  have hpre : ∀ b : Bool, ∀ c ∈ "addiu a0,a0,".toList
      ++ ((if b then "-".toList else []) ++ "0x".toList), ciEq 'l' c = false := by
    intro b; cases b <;> decide
  intro c hc
  have e2 : "addiu a0,a0,".toList ++ signedHexText negative D
      = ("addiu a0,a0,".toList ++ ((if negative then "-".toList else []) ++ "0x".toList))
          ++ D := by
    simp [signedHexText]
  rw [e2] at hc
  rcases List.mem_append.mp hc with h | h
  · exact hpre negative c h
  · exact ciEq_of_hex 'l' c (hD c h) (by decide)

theorem addiuLine_no_s (negative : Bool) (D : JSString) (hD : ∀ c ∈ D, isHexDigit c = true) :
    ∀ c ∈ "addiu a0,a0,".toList ++ signedHexText negative D, ciEq 's' c = false := by
  have hpre : ∀ b : Bool, ∀ c ∈ "addiu a0,a0,".toList
      ++ ((if b then "-".toList else []) ++ "0x".toList), ciEq 's' c = false := by
    intro b; cases b <;> decide
  intro c hc
  have e2 : "addiu a0,a0,".toList ++ signedHexText negative D
      = ("addiu a0,a0,".toList ++ ((if negative then "-".toList else []) ++ "0x".toList))
          ++ D := by
    simp [signedHexText]
  rw [e2] at hc
  rcases List.mem_append.mp hc with h | h
  · exact hpre negative c h
  · exact ciEq_of_hex 's' c (hD c h) (by decide)

/-- The loop of `computeDynamicBase` on the four-line block, before the
numbers are evaluated. -/
theorem scanText_primaryBlockText (U D : JSString) (negative : Bool)
    (hU : ∀ c ∈ U, isHexDigit c = true) (hUne : U ≠ []) (hUlen : U.length ≤ 4)
    (hD : ∀ c ∈ D, isHexDigit c = true) (hDne : D ≠ []) :
    scanText (primaryBlockText U negative D)
      = { stop := some 3,
          dynamicBase := some (JSNum.add (shl (parseInt16 U) 16)
            (parseInt16 (signedHexText negative D))),
          upper := some (parseInt16 U),
          lower := some (parseInt16 (signedHexText negative D)) } := by
  have m1 : matchLUI ("lui a0,0x".toList ++ U) = some U :=
    firstMatch_of_some _ _ _ (luiAt_line U hU hUne hUlen)
  have m2 : matchADDIU ("addiu a0,a0,".toList ++ signedHexText negative D)
      = some (signedHexText negative D) :=
    firstMatch_of_some _ _ _ (addiuAt_line negative D hD hDne)
  have n2 : matchLUI ("addiu a0,a0,".toList ++ signedHexText negative D) = none :=
    matchLUI_none _ (addiuLine_no_l negative D hD)
  have s2 : includesSyscall ("addiu a0,a0,".toList ++ signedHexText negative D) = false :=
    includesSyscall_false _ (addiuLine_no_s negative D hD)
  have u1 : ∀ up, updateUpper ("lui a0,0x".toList ++ U) up = some (parseInt16 U) := by
    intro up; unfold updateUpper; rw [m1]
  have l2 : ∀ lo, updateLower ("addiu a0,a0,".toList ++ signedHexText negative D) lo
      = some (parseInt16 (signedHexText negative D)) := by
    intro lo; unfold updateLower; rw [m2]
  have c1 : (includesSyscall ("lui a0,0x".toList ++ U) && v1Is3C []) = false := by
    have : v1Is3C [] = false := by decide
    rw [this, Bool.and_false]
  have c2 : (includesSyscall ("addiu a0,a0,".toList ++ signedHexText negative D)
      && v1Is3C ("lui a0,0x".toList ++ U)) = false := by
    rw [s2, Bool.false_and]
  have c3 : (includesSyscall "addiu v1,zero,0x3C".toList
      && v1Is3C ("addiu a0,a0,".toList ++ signedHexText negative D)) = false := by
    have : includesSyscall "addiu v1,zero,0x3C".toList = false := by decide
    rw [this, Bool.false_and]
  have c4 : (includesSyscall "syscall".toList && v1Is3C "addiu v1,zero,0x3C".toList)
      = true := by decide
  have n3 : matchLUI "addiu v1,zero,0x3C".toList = none := by decide
  have a3 : matchADDIU "addiu v1,zero,0x3C".toList = none := by decide
  have n4 : matchLUI "syscall".toList = none := by decide
  have a4 : matchADDIU "syscall".toList = none := by decide
  unfold scanText
  rw [linesOf_primaryBlockText U D negative hU hUne hD hDne,
    scanLines_cons_next _ _ _ _ _ _ c1, scanLines_cons_next _ _ _ _ _ _ c2,
    scanLines_cons_next _ _ _ _ _ _ c3,
    scanLines_cons_stop _ _ _ _ _ _ (parseInt16 U) (parseInt16 (signedHexText negative D)) c4]
  · rw [updateUpper_of_none _ _ n4, updateUpper_of_none _ _ n3, updateUpper_of_none _ _ n2, u1]
  · rw [updateLower_of_none _ _ a4, updateLower_of_none _ _ a3, l2]

/-- C1 (amended): for every upper immediate `U` of 1 to 4 hexadecimal digits
with value below 0x8000 and every signed hexadecimal immediate `L` such that
`L` and `U * 65536 + L` have magnitude at most `2^53`, `computeDynamicBase` on
the four-line text returns upper = `U`, lower = `L` and dynamicBase =
`U * 65536 + L`. -/
theorem primary_block_value (U D : JSString) (negative : Bool)
    (hU : ∀ c ∈ U, isHexDigit c = true) (hU1 : 1 ≤ U.length) (hU4 : U.length ≤ 4)
    (hUv : hexValue U < 0x8000)
    (hD : ∀ c ∈ D, isHexDigit c = true) (hD1 : 1 ≤ D.length)
    (hL : (signedHexValue negative D).natAbs ≤ 2 ^ 53)
    (hsum : ((hexValue U : Int) * 65536 + signedHexValue negative D).natAbs ≤ 2 ^ 53) :
    computeDynamicBase (primaryBlockText U negative D)
      = { dynamicBase := some (JSNum.fin ((hexValue U : Int) * 65536
            + signedHexValue negative D)),
          upper := some (JSNum.fin (hexValue U : Int)),
          lower := some (JSNum.fin (signedHexValue negative D)) } := by
  have hUne : U ≠ [] := by
    intro h; rw [h] at hU1; simp at hU1
  have hDne : D ≠ [] := by
    intro h; rw [h] at hD1; simp at hD1
  have pU : parseInt16 U = JSNum.fin (hexValue U : Int) := by
    rw [parseInt16_hex U hU hUne]
    apply toNumber_exact
    simp only [Int.natAbs_ofNat]
    omega
  have pL : parseInt16 (signedHexText negative D) = JSNum.fin (signedHexValue negative D) := by
    rw [parseInt16_signedHexText negative D hD hDne]
    exact toNumber_exact _ hL
  unfold computeDynamicBase
  rw [scanText_primaryBlockText U D negative hU hUne hU4 hD hDne, pU, pL,
    shl16_small _ (by omega) (by omega), add_small _ _ hsum]

set_option maxRecDepth 100000 in
/-- Witness of C1: the two examples, 0x70 with 0x1234 and 0x71 with -0x10. -/
theorem primary_block_value_witness :
    computeDynamicBase "lui a0,0x70\naddiu a0,a0,0x1234\naddiu v1,zero,0x3C\nsyscall".toList
      = { dynamicBase := some (JSNum.fin 0x00701234), upper := some (JSNum.fin 0x70),
          lower := some (JSNum.fin 0x1234) } ∧
    computeDynamicBase "lui a0,0x71\naddiu a0,a0,-0x10\naddiu v1,zero,0x3C\nsyscall".toList
      = { dynamicBase := some (JSNum.fin 0x0070FFF0), upper := some (JSNum.fin 0x71),
          lower := some (JSNum.fin (-0x10)) } :=
  ⟨primary_block_value "70".toList "1234".toList false (by decide) (by decide) (by decide)
      (by decide) (by decide) (by decide) (by decide) (by decide),
   primary_block_value "71".toList "10".toList true (by decide) (by decide) (by decide)
      (by decide) (by decide) (by decide) (by decide) (by decide)⟩

set_option maxRecDepth 100000 in
/-- C1 (counterexample): for `U = 0x70` and `L = 0x20000000000001`, which is
`2^53 + 1`, the returned lower is `2^53`, not `L`, and the dynamic base is
`0x700000 + 2^53`, not `0x700000 + L`. -/
theorem primary_block_value_long_immediate :
    computeDynamicBase (primaryBlockText "70".toList false "20000000000001".toList)
      = { dynamicBase := some (JSNum.fin (0x00700000 + 2 ^ 53)),
          upper := some (JSNum.fin 0x70), lower := some (JSNum.fin (2 ^ 53)) } ∧
    signedHexValue false "20000000000001".toList = 2 ^ 53 + 1 ∧
    (hexValue "70".toList : Int) * 65536 + signedHexValue false "20000000000001".toList
      = 0x00700000 + 2 ^ 53 + 1 := by
  refine ⟨by decide, by decide, by decide⟩

/-! ### The secondary block -/

theorem takeWhile_hex_mem : ∀ (s : JSString), ∀ c ∈ s.takeWhile isHexDigit, isHexDigit c = true := by
  intro s
  induction s with
  | nil => intro c hc; simp at hc
  | cons d ds ih =>
    intro c hc
    simp only [List.takeWhile] at hc
    split at hc
    · rename_i hd
      rcases List.mem_cons.mp hc with rfl | h2
      · exact hd
      · exact ih c h2
    · simp at hc

theorem lui2At_some (s g : JSString) (h : lui2At s = some g) :
    g ≠ [] ∧ ∀ c ∈ g, isHexDigit c = true := by
  unfold lui2At at h
  split at h
  · exact absurd h (by simp)
  · rename_i r _
    simp only at h
    split at h
    · exact absurd h (by simp)
    · rename_i hne
      have hg : r.takeWhile isHexDigit = g := Option.some.inj h
      rw [← hg]
      refine ⟨?_, takeWhile_hex_mem r⟩
      intro h0
      rw [h0] at hne
      exact hne rfl

theorem secondBaseOf_value (block U2 D : JSString) (negative : Bool)
    (hlui : firstMatch lui2At block = some U2)
    (haddiu : firstMatch addiu2At block = some (signedHexText negative D))
    (hD : ∀ c ∈ D, isHexDigit c = true) (hD1 : 1 ≤ D.length)
    (hU2 : hexValue U2 < 0x8000)
    (hL : (signedHexValue negative D).natAbs ≤ 2 ^ 53)
    (hsum : ((hexValue U2 : Int) * 65536 + signedHexValue negative D).natAbs ≤ 2 ^ 53) :
    secondBaseOf block
      = some (JSNum.fin ((hexValue U2 : Int) * 65536 + signedHexValue negative D)) := by
  have hDne : D ≠ [] := by
    intro h; rw [h] at hD1; simp at hD1
  obtain ⟨s1, hs1⟩ := firstMatch_some lui2At U2 block hlui
  obtain ⟨hUne, hU⟩ := lui2At_some s1 U2 hs1
  have pU : parseInt16 U2 = JSNum.fin (hexValue U2 : Int) := by
    rw [parseInt16_hex U2 hU hUne]
    apply toNumber_exact
    simp only [Int.natAbs_ofNat]
    omega
  have pL : parseInt16 (signedHexText negative D) = JSNum.fin (signedHexValue negative D) := by
    rw [parseInt16_signedHexText negative D hD hDne]
    exact toNumber_exact _ hL
  unfold secondBaseOf
  rw [hlui, haddiu]
  simp only [pU, pL]
  rw [shl16_small _ (by omega) (by omega), add_small _ _ hsum]

/-- C6 (amended): let the secondary pattern capture a block of the text whose
first `lui a0,0xU2` has `U2 < 0x8000` and whose first `addiu a0,a0,L2` has a
signed hexadecimal immediate `L2`, with `L2` and `U2 * 65536 + L2` of magnitude
at most `2^53`.  When `computeDynamicBase` finds a primary base, the handler
reports the block, with the secondary base `U2 * 65536 + L2` when that sum is
not 0 and with `unknown` in place of the base when it is 0; when
`computeDynamicBase` finds no primary base, the handler reports nothing. -/
theorem secondary_block_gated (t block U2 D : JSString) (negative : Bool)
    (hblock : secondBlockMatch t = some block)
    (hlui : firstMatch lui2At block = some U2)
    (haddiu : firstMatch addiu2At block = some (signedHexText negative D))
    (hD : ∀ c ∈ D, isHexDigit c = true) (hD1 : 1 ≤ D.length)
    (hU2 : hexValue U2 < 0x8000)
    (hL : (signedHexValue negative D).natAbs ≤ 2 ^ 53)
    (hsum : ((hexValue U2 : Int) * 65536 + signedHexValue negative D).natAbs ≤ 2 ^ 53) :
    ((computeDynamicBase t).dynamicBase = none → mipsInputHandler t = none) ∧
    (∀ d, (computeDynamicBase t).dynamicBase = some d →
      ∃ r, mipsInputHandler t = some r ∧ r.dynamicBase = d ∧
        r.second = some
          { block := block,
            shownBase :=
              if (hexValue U2 : Int) * 65536 + signedHexValue negative D = 0 then none
              else some (JSNum.fin ((hexValue U2 : Int) * 65536
                + signedHexValue negative D)) }) := by
  have hb := secondBaseOf_value block U2 D negative hlui haddiu hD hD1 hU2 hL hsum
  constructor
  · intro hn
    unfold mipsInputHandler
    simp only [hn]
  · intro d hd
    refine ⟨{ dynamicBase := d, isHeap := isHeap d,
              upper := (computeDynamicBase t).upper, lower := (computeDynamicBase t).lower,
              second := some { block := block,
                               shownBase := shownSecondBase (secondBaseOf block) } },
      ?_, rfl, ?_⟩
    · unfold mipsInputHandler
      simp only [hd, hblock]
    · simp only [hb, shownSecondBase, truthy]
      by_cases h0 : (hexValue U2 : Int) * 65536 + signedHexValue negative D = 0
      · simp [h0]
      · simp [h0]

set_option maxRecDepth 100000 in
/-- Witness of C6: a primary block followed by a secondary block with
`lui a0,0x01` and `addiu a0,a0,0x5678`. -/
theorem secondary_block_gated_witness :
    (computeDynamicBase exampleTwoBlocks).dynamicBase = some (JSNum.fin 0x00701234) ∧
    (((computeDynamicBase exampleTwoBlocks).dynamicBase = none →
        mipsInputHandler exampleTwoBlocks = none) ∧
      (∀ d, (computeDynamicBase exampleTwoBlocks).dynamicBase = some d →
        ∃ r, mipsInputHandler exampleTwoBlocks = some r ∧ r.dynamicBase = d ∧
          r.second = some
            { block := exampleSecondBlock,
              shownBase :=
                if (hexValue "01".toList : Int) * 65536
                    + signedHexValue false "5678".toList = 0 then none
                else some (JSNum.fin ((hexValue "01".toList : Int) * 65536
                  + signedHexValue false "5678".toList)) })) :=
  ⟨by decide,
   secondary_block_gated exampleTwoBlocks exampleSecondBlock "01".toList "5678".toList false
     (by decide) (by decide) (by decide) (by decide) (by decide) (by decide) (by decide)
     (by decide)⟩

set_option maxRecDepth 100000 in
/-- C6 (counterexample): the text holds a span between two `syscall ---`
delimiters with `addiu v1,zero,0x3D`, `lui a0,0x01` and `addiu a0,a0,0x5678`,
whose secondary base would be 0x00015678, but `computeDynamicBase` finds no
primary base and the handler reports nothing. -/
theorem secondary_block_not_reported_without_primary :
    secondBlockMatch exampleSecondaryOnly = some exampleSecondBlock ∧
    firstMatch lui2At exampleSecondBlock = some "01".toList ∧
    firstMatch addiu2At exampleSecondBlock = some "0x5678".toList ∧
    secondBaseOf exampleSecondBlock = some (JSNum.fin 0x00015678) ∧
    (computeDynamicBase exampleSecondaryOnly).dynamicBase = none ∧
    mipsInputHandler exampleSecondaryOnly = none := by
  refine ⟨by decide, by decide, by decide, by decide, by decide, by decide⟩

/-! ### Last write wins -/

theorem takeHex_eq_take (n : Nat) : ∀ s, takeHex n s = (s.takeWhile isHexDigit).take n := by
  induction n with
  | zero => intro s; simp [takeHex]
  | succ n ih =>
    intro s
    cases s with
    | nil => simp [takeHex]
    | cons c cs =>
      simp only [takeHex, List.takeWhile]
      cases hc : isHexDigit c with
      | true => simp [ih cs]
      | false => simp

theorem luiAt_eq_written (s : JSString) : luiAt s = (luiWrittenAt s).map (List.take 4) := by
  unfold luiAt luiWrittenAt
  split
  · rfl
  · split
    · rfl
    · split
      · rfl
      · rename_i r3 _
        simp only [takeHex_eq_take]
        cases hds : r3.takeWhile isHexDigit with
        | nil => simp
        | cons c cs => simp

theorem firstMatch_map {α β : Type} (m1 : JSString → Option α) (m2 : JSString → Option β)
    (f : β → α) (h : ∀ s, m1 s = (m2 s).map f) :
    ∀ s, firstMatch m1 s = (firstMatch m2 s).map f := by
  intro s
  induction s with
  | nil => simp [firstMatch, h]
  | cons c cs ih =>
    simp only [firstMatch, h]
    cases m2 (c :: cs) with
    | none => simpa using ih
    | some r => simp

theorem matchLUI_eq_written (line : JSString) :
    matchLUI line = (writtenUpperImmediate line).map (List.take 4) :=
  firstMatch_map luiAt luiWrittenAt (List.take 4) luiAt_eq_written line

theorem bind_matchLUI_eq_written (o : Option JSString) :
    o.bind matchLUI = (o.bind writtenUpperImmediate).map (List.take 4) := by
  cases o with
  | none => rfl
  | some line => exact matchLUI_eq_written line
theorem char_eq_of_toNat (a : Char) (n : Nat) (h : a.toNat = n) : a = Char.ofNat n := by
  rw [← h, Char.ofNat_toNat]

theorem ciEq_zero (a : Char) (h : ciEq '0' a = true) : a = '0' := by
  have h1 : lowerCode 48 = lowerCode a.toNat := by
    simpa [ciEq] using h
  have h2 : a.toNat = 48 := by
    unfold lowerCode at h1
    split at h1 <;> split at h1 <;> omega
  exact char_eq_of_toNat a 48 h2

theorem ciEq_x (a : Char) (h : ciEq 'x' a = true) : a = 'x' ∨ a = 'X' := by
  have h1 : lowerCode 120 = lowerCode a.toNat := by
    simpa [ciEq] using h
  have h2 : a.toNat = 120 ∨ a.toNat = 88 := by
    unfold lowerCode at h1
    split at h1 <;> split at h1 <;> omega
  rcases h2 with h2 | h2
  · exact Or.inl (char_eq_of_toNat a 120 h2)
  · exact Or.inr (char_eq_of_toNat a 88 h2)

theorem litPrefix_0x (r r1 : JSString) (h : litPrefix "0x".toList r = some r1) :
    ∃ c1, r = '0' :: c1 :: r1 ∧ (c1 = 'x' ∨ c1 = 'X') := by
  have e : "0x".toList = ['0', 'x'] := rfl
  rw [e] at h
  match r, h with
  | [], h => simp [litPrefix] at h
  | [a], h =>
    simp only [litPrefix] at h
    split at h <;> simp at h
  | a :: b :: rest, h =>
    simp only [litPrefix] at h
    split at h
    · rename_i ha
      split at h
      · rename_i hb
        have hr : rest = r1 := Option.some.inj h
        rw [ciEq_zero a ha, hr]
        exact ⟨b, rfl, ciEq_x b hb⟩
      · simp at h
    · simp at h

theorem take_takeWhile_length (r : JSString) :
    r.take (r.takeWhile isHexDigit).length = r.takeWhile isHexDigit :=
  (List.prefix_iff_eq_take.mp (List.takeWhile_prefix isHexDigit)).symm

/-- The text that the piece `(-?0x[0-9A-Fa-f]+)` captures. -/
theorem signedHexAt_some (s g : JSString) (h : signedHexAt s = some g) :
    ∃ c1 ds, (g = '0' :: c1 :: ds ∨ g = '-' :: '0' :: c1 :: ds) ∧ (c1 = 'x' ∨ c1 = 'X') ∧
      ds ≠ [] ∧ ∀ c ∈ ds, isHexDigit c = true := by
  cases s with
  | nil =>
    have : signedHexAt [] = none := by decide
    rw [this] at h
    exact absurd h (by simp)
  | cons c cs =>
    by_cases hc : c = '-'
    · subst hc
      have hs : signedHexAt ('-' :: cs)
          = match litPrefix "0x".toList cs with
            | none => none
            | some r1 =>
              if (r1.takeWhile isHexDigit).isEmpty then none
              else some (('-' :: cs).take (1 + 2 + (r1.takeWhile isHexDigit).length)) := by
        simp [signedHexAt]
      rw [hs] at h
      split at h
      · exact absurd h (by simp)
      · rename_i r1 hl
        obtain ⟨c1, hcs, hx⟩ := litPrefix_0x cs r1 hl
        split at h
        · exact absurd h (by simp)
        · rename_i hne
          have hg := Option.some.inj h
          refine ⟨c1, r1.takeWhile isHexDigit, Or.inr ?_, hx, ?_, takeWhile_hex_mem r1⟩
          · rw [← hg, hcs]
            have e : 1 + 2 + (r1.takeWhile isHexDigit).length
                = (r1.takeWhile isHexDigit).length + 1 + 1 + 1 := by omega
            rw [e]
            simp only [List.take_succ_cons, take_takeWhile_length]
          · intro h0
            rw [h0] at hne
            exact hne rfl
    · have hs : signedHexAt (c :: cs)
          = match litPrefix "0x".toList (c :: cs) with
            | none => none
            | some r1 =>
              if (r1.takeWhile isHexDigit).isEmpty then none
              else some ((c :: cs).take (0 + 2 + (r1.takeWhile isHexDigit).length)) := by
        simp [signedHexAt, hc]
      rw [hs] at h
      split at h
      · exact absurd h (by simp)
      · rename_i r1 hl
        obtain ⟨c1, hcs, hx⟩ := litPrefix_0x (c :: cs) r1 hl
        split at h
        · exact absurd h (by simp)
        · rename_i hne
          have hg := Option.some.inj h
          refine ⟨c1, r1.takeWhile isHexDigit, Or.inl ?_, hx, ?_, takeWhile_hex_mem r1⟩
          · rw [← hg, hcs]
            have e : 0 + 2 + (r1.takeWhile isHexDigit).length
                = (r1.takeWhile isHexDigit).length + 1 + 1 := by omega
            rw [e]
            simp only [List.take_succ_cons, take_takeWhile_length]
          · intro h0
            rw [h0] at hne
            exact hne rfl
theorem parseDigits16_prefixed (negative : Bool) (c1 : Char) (D : JSString)
    (hx : c1 = 'x' ∨ c1 = 'X') (hD : ∀ c ∈ D, isHexDigit c = true) (hne : D ≠ []) :
    parseDigits16 negative ('0' :: c1 :: D)
      = if negative then toNumber (-(hexValue D : Int)) else toNumber (hexValue D : Int) := by
  have hs : stripHexPrefix ('0' :: c1 :: D) = D := by simp [stripHexPrefix, hx]
  unfold parseDigits16
  simp only [hs, takeWhile_hex_all D hD, isEmpty_of_ne_nil D hne]
  simp

theorem parseInt16_written (g : JSString) (c1 : Char) (ds : JSString)
    (hg : g = '0' :: c1 :: ds ∨ g = '-' :: '0' :: c1 :: ds) (hx : c1 = 'x' ∨ c1 = 'X')
    (hne : ds ≠ []) (hds : ∀ c ∈ ds, isHexDigit c = true) :
    parseInt16 g = toNumber (writtenValue g) := by
  rcases hg with rfl | rfl
  · have hw : isWhiteSpace '0' = false := by decide
    have hm : ('0' : Char) ≠ '-' := by decide
    have hp : ('0' : Char) ≠ '+' := by decide
    unfold parseInt16 trimStart
    simp only [List.dropWhile, hw, hm, hp, if_false]
    rw [parseDigits16_prefixed false c1 ds hx hds hne]
    simp [writtenValue]
  · have hw : isWhiteSpace '-' = false := by decide
    unfold parseInt16 trimStart
    simp only [List.dropWhile, hw, if_true]
    rw [parseDigits16_prefixed true c1 ds hx hds hne]
    simp [writtenValue]

theorem addiuAt_some (s g : JSString) (h : addiuAt s = some g) :
    parseInt16 g = toNumber (writtenValue g) := by
  unfold addiuAt at h
  split at h
  · exact absurd h (by simp)
  · split at h
    · exact absurd h (by simp)
    · split at h
      · exact absurd h (by simp)
      · rename_i r3 _
        obtain ⟨c1, ds, hg, hx, hne, hds⟩ := signedHexAt_some r3 g h
        exact parseInt16_written g c1 ds hg hx hne hds

/-- The number that the loop stores for a line matching the add-immediate
pattern is the number value of the immediate as written. -/
theorem matchADDIU_value (line g : JSString) (h : matchADDIU line = some g) :
    parseInt16 g = toNumber (writtenValue g) := by
  obtain ⟨s1, hs1⟩ := firstMatch_some addiuAt g line h
  exact addiuAt_some s1 g hs1

/-- C10 (amended): last write wins, with no block scoping: when
`computeDynamicBase` finds a dynamic base, the loop stopping at the call-marker
line `i`, the returned upper is the value of the first four hexadecimal digits
of the immediate written in the last line with index at most `i` that matches
the upper-load idiom (the immediate itself when it has at most four digits),
and the returned lower is the number value (the nearest double) of the
immediate written in the last line with index at most `i` that matches the
add-immediate idiom (the immediate itself when its magnitude is at most
`2^53`). -/
theorem last_write_wins (t : JSString) (d : JSNum)
    (h : (computeDynamicBase t).dynamicBase = some d) :
    ∃ (i : Nat), (scanText t).stop = some i ∧ i < (linesOf t).length ∧
      includesSyscall ((linesOf t).getD i []) = true ∧
      (∃ j w, j ≤ i ∧ ((linesOf t)[j]?).bind writtenUpperImmediate = some w ∧
        (computeDynamicBase t).upper = some (JSNum.fin (hexValue (w.take 4) : Int)) ∧
        (w.length ≤ 4 → (computeDynamicBase t).upper = some (JSNum.fin (hexValue w : Int))) ∧
        ∀ k, j < k → k ≤ i → ((linesOf t)[k]?).bind writtenUpperImmediate = none) ∧
      (∃ j g, j ≤ i ∧ ((linesOf t)[j]?).bind matchADDIU = some g ∧
        (computeDynamicBase t).lower = some (toNumber (writtenValue g)) ∧
        ((writtenValue g).natAbs ≤ 2 ^ 53 →
          (computeDynamicBase t).lower = some (JSNum.fin (writtenValue g))) ∧
        ∀ k, j < k → k ≤ i → ((linesOf t)[k]?).bind matchADDIU = none) := by
  obtain ⟨i, u, l, hstop, hi, hs, _, hu, hl, _, hU, hL⟩ := computeDynamicBase_some t d h
  refine ⟨i, hstop, hi, hs, ?_, ?_⟩
  · rcases hU with ⟨j, g, hj, hg, hr, hk⟩ | ⟨hr, _⟩
    · rw [bind_matchLUI_eq_written] at hg
      obtain ⟨w, hw, hwg⟩ := Option.map_eq_some'.mp hg
      have hg' : ((linesOf t)[j]?).bind matchLUI = some g := by
        rw [bind_matchLUI_eq_written, hw, ← hwg]; rfl
      cases hj' : (linesOf t)[j]? with
      | none => rw [hj'] at hg'; exact absurd hg' (by simp)
      | some line =>
        rw [hj'] at hg'
        obtain ⟨hp, _⟩ := matchLUI_value line g hg'
        have hup : (computeDynamicBase t).upper = some (JSNum.fin (hexValue (w.take 4) : Int)) := by
          rw [hu, hr, hp, ← hwg]
        refine ⟨j, w, hj, hw, hup, ?_, ?_⟩
        · intro hlen
          rw [hup, List.take_of_length_le hlen]
        · intro k h1 h2
          have := hk k h1 h2
          rw [bind_matchLUI_eq_written] at this
          exact Option.map_eq_none'.mp this
    · exact absurd hr (by simp)
  · rcases hL with ⟨j, g, hj, hg, hr, hk⟩ | ⟨hr, _⟩
    · cases hj' : (linesOf t)[j]? with
      | none => rw [hj'] at hg; exact absurd hg (by simp)
      | some line =>
        have hg' : matchADDIU line = some g := by
          rw [hj'] at hg; exact hg
        have hp := matchADDIU_value line g hg'
        have hlo : (computeDynamicBase t).lower = some (toNumber (writtenValue g)) := by
          rw [hl, hr, hp]
        refine ⟨j, g, hj, hg, hlo, ?_, hk⟩
        intro hb
        rw [hlo, toNumber_exact _ hb]
    · exact absurd hr (by simp)

set_option maxRecDepth 100000 in
/-- Witness of C10: an earlier pair of immediates and an earlier
non-qualifying `syscall` line leave no trace in the result. -/
theorem last_write_wins_witness :
    computeDynamicBase exampleEarlierBlock
      = { dynamicBase := some (JSNum.fin 0x00701234), upper := some (JSNum.fin 0x70),
          lower := some (JSNum.fin 0x1234) } ∧
    ∃ (i : Nat), (scanText exampleEarlierBlock).stop = some i ∧
      i < (linesOf exampleEarlierBlock).length ∧
      includesSyscall ((linesOf exampleEarlierBlock).getD i []) = true ∧
      (∃ j w, j ≤ i ∧
        ((linesOf exampleEarlierBlock)[j]?).bind writtenUpperImmediate = some w ∧
        (computeDynamicBase exampleEarlierBlock).upper
          = some (JSNum.fin (hexValue (w.take 4) : Int)) ∧
        (w.length ≤ 4 →
          (computeDynamicBase exampleEarlierBlock).upper
            = some (JSNum.fin (hexValue w : Int))) ∧
        ∀ k, j < k → k ≤ i →
          ((linesOf exampleEarlierBlock)[k]?).bind writtenUpperImmediate = none) ∧
      (∃ j g, j ≤ i ∧ ((linesOf exampleEarlierBlock)[j]?).bind matchADDIU = some g ∧
        (computeDynamicBase exampleEarlierBlock).lower
          = some (toNumber (writtenValue g)) ∧
        ((writtenValue g).natAbs ≤ 2 ^ 53 →
          (computeDynamicBase exampleEarlierBlock).lower
            = some (JSNum.fin (writtenValue g))) ∧
        ∀ k, j < k → k ≤ i →
          ((linesOf exampleEarlierBlock)[k]?).bind matchADDIU = none) :=
  ⟨by decide, last_write_wins exampleEarlierBlock (JSNum.fin 0x00701234) (by decide)⟩

set_option maxRecDepth 100000 in
/-- C10 (counterexample): in the first text the only line matching the
upper-load idiom is `lui a0,0x12345`, whose immediate is 0x12345, and the
returned upper is 0x1234; in the second text the only line matching the
add-immediate idiom has the immediate `2^53 + 1`, and the returned lower is
`2^53`. -/
theorem last_write_not_the_written_immediate :
    (scanText exampleLongUpper).stop = some 3 ∧
    (linesOf exampleLongUpper).map writtenUpperImmediate
      = [some "12345".toList, none, none, none] ∧
    hexValue "12345".toList = 0x12345 ∧
    computeDynamicBase exampleLongUpper
      = { dynamicBase := some (JSNum.fin 0x12340000), upper := some (JSNum.fin 0x1234),
          lower := some (JSNum.fin 0) } ∧
    (scanText exampleLongLower).stop = some 3 ∧
    (linesOf exampleLongLower).map matchADDIU
      = [none, some "0x20000000000001".toList, none, none] ∧
    writtenValue "0x20000000000001".toList = 2 ^ 53 + 1 ∧
    computeDynamicBase exampleLongLower
      = { dynamicBase := some (JSNum.fin (0x00700000 + 2 ^ 53)),
          upper := some (JSNum.fin 0x70), lower := some (JSNum.fin (2 ^ 53)) } := by
  refine ⟨by decide, by decide, by decide, by decide, by decide, by decide, by decide,
    by decide⟩

end ELF2Heap
